import Mathlib

/-!
Verification development for the Pytorch-Gpipe graph-construction and
partitioning pipeline.

The embedding mirrors `model_partition/graph/control_flow_graph.py` and
`model_Inference/graph/partition_model.py`.  Python objects are modelled
explicitly: mutable `set` objects live in a heap (`GState.heap`) addressed by
reference, and `Node` objects live in an arena (`GState.objs`) addressed by
allocation id.  A `Node`'s `in_nodes` / `out_nodes` attributes hold heap
references, exactly as the Python attributes hold references to set objects;
this keeps the shallow-copy aliasing of `copy(new_node)` observable.
Set objects are insertion-ordered duplicate-free lists (one admissible
iteration order for Python's unordered sets).
-/

namespace PG

/-- NodeTypes enum from control_flow_graph.py (IN, BUFF_PARAM, LAYER, OP). -/
inductive NodeTypes
  | IN
  | BUFF_PARAM
  | LAYER
  | OP
deriving DecidableEq, Repr

/-- Values stored in a node's `weight` attribute: either a Python int (sizes
product for inputs/params, 0 default for ops) or a profiled-layer timing
record.  The record type itself (a named tuple with `forward_time` and
`backward_time` fields, produced by the profiler outside `src/`) is modelled
from the spec: a named tuple is a `tuple` instance, so it takes the
`isinstance(w, tuple)` branch of `weight_func`.  Times are modelled as
rationals. -/
inductive PyWeight
  | int (n : ℤ)
  | timing (forward_time backward_time : ℚ)
deriving DecidableEq, Repr

/-- Python `int()` applied to a rational: truncation toward zero. -/
def pyInt (q : ℚ) : ℤ :=
  if 0 ≤ q then ⌊q⌋ else ⌈q⌉

/-- weight_func from model_Inference/graph/partition_model.py lines 32-35:
`int(100*(w.forward_time+w.backward_time)/2)` on the tuple branch, else 0. -/
def weight_func (w : PyWeight) : ℤ :=
  match w with
  | .timing f b => pyInt (100 * (f + b) / 2)
  | .int _ => 0

/-- A Python `set` object holding node-object ids: an insertion-ordered
duplicate-free list. -/
abbrev SetObj := List Nat

/-- `s.add(x)` on a Python set. -/
def setAdd (s : SetObj) (x : Nat) : SetObj :=
  if x ∈ s then s else s ++ [x]

/-- `s.discard(x)` on a Python set. -/
def setDiscard (s : SetObj) (x : Nat) : SetObj :=
  s.filter (fun y => y ≠ x)

/-- `s.update(t)` on a Python set. -/
def setUnionUpd (s t : SetObj) : SetObj :=
  t.foldl setAdd s

/-- `s.difference_update(t)` on a Python set. -/
def setDiffUpd (s t : SetObj) : SetObj :=
  s.filter (fun y => y ∉ t)

/-- Node object from control_flow_graph.py lines 43-95.  `in_nodes` and
`out_nodes` hold heap references to set objects (Python attributes hold
references).  `output_shape` is the list of dimension tuples stored by
`__init__` (`[output_shape]` for a tuple argument — every call site passes a
tuple). -/
structure Node where
  scope : String
  idx : Nat
  type : NodeTypes
  weight : PyWeight
  part : Nat
  output_shape : List (List ℤ)
  in_nodes : Nat
  out_nodes : Nat
deriving DecidableEq, Repr

instance : Inhabited Node :=
  ⟨⟨"", 0, .OP, .int 0, 10, [], 0, 0⟩⟩

/-- The mutable state of a Graph object: the set heap, the node-object arena,
and the Graph's own attributes (`nodes` is the list of node-object ids held by
`self.nodes`). -/
structure GState where
  heap : List SetObj
  objs : List Node
  nodes : List Nat
  profiled_layers : List String
  num_inputs : Nat
  buffer_param_names : List String
  num_inputs_buffs_params : Nat
deriving DecidableEq, Repr

/-- Dereference a set object. -/
def getSet (st : GState) (r : Nat) : SetObj :=
  st.heap.getD r []

/-- Overwrite a set object in place. -/
def setSet (st : GState) (r : Nat) (v : SetObj) : GState :=
  { st with heap := st.heap.set r v }

/-- Dereference a node object. -/
def getNode (st : GState) (a : Nat) : Node :=
  st.objs.getD a default

/-- Mutate a node object's attributes in place. -/
def updNode (st : GState) (a : Nat) (f : Node → Node) : GState :=
  { st with objs := st.objs.set a (f (getNode st a)) }

/-- A Python value passed to one of the four edge mutators: a `Node` instance
(arena id), a `set` object (heap reference), or anything else. -/
inductive PyArg
  | node (a : Nat)
  | set (r : Nat)
  | other
deriving DecidableEq, Repr

/-- Node.add_out_node (lines 73-77): add a single node, union a set, silently
ignore anything else. -/
def add_out_node (st : GState) (self : Nat) (arg : PyArg) : GState :=
  let r := (getNode st self).out_nodes
  match arg with
  | .node a => setSet st r (setAdd (getSet st r) a)
  | .set t => setSet st r (setUnionUpd (getSet st r) (getSet st t))
  | .other => st

/-- Node.add_in_node (lines 79-83). -/
def add_in_node (st : GState) (self : Nat) (arg : PyArg) : GState :=
  let r := (getNode st self).in_nodes
  match arg with
  | .node a => setSet st r (setAdd (getSet st r) a)
  | .set t => setSet st r (setUnionUpd (getSet st r) (getSet st t))
  | .other => st

/-- Node.remove_in_node (lines 85-89): discard a single node, subtract a set,
silently ignore anything else. -/
def remove_in_node (st : GState) (self : Nat) (arg : PyArg) : GState :=
  let r := (getNode st self).in_nodes
  match arg with
  | .node a => setSet st r (setDiscard (getSet st r) a)
  | .set t => setSet st r (setDiffUpd (getSet st r) (getSet st t))
  | .other => st

/-- Node.remove_out_node (lines 91-95). -/
def remove_out_node (st : GState) (self : Nat) (arg : PyArg) : GState :=
  let r := (getNode st self).out_nodes
  match arg with
  | .node a => setSet st r (setDiscard (getSet st r) a)
  | .set t => setSet st r (setDiffUpd (getSet st r) (getSet st t))
  | .other => st

/-- Exceptions that can propagate out of graph construction.  `indexError`
models the built-in Python IndexError raised by out-of-range list indexing
(`self.nodes[i.unique()]` at line 160, `self.buffer_param_names[...]` at line
145, `self.nodes[node_idx+i-1]` at line 202); `sizesError` models the
exception propagating out of the external tensor-type accessor
`node.type().sizes()` (line 137) on a trace input with no declared shape.
`shapeResolutionError` and `danglingReferenceError` are modelled from the
spec: dedicated exception classes named by the spec's error taxonomy; no
class of either name exists anywhere in the source. -/
inductive BuildExn
  | indexError
  | sizesError
  | shapeResolutionError
  | danglingReferenceError
deriving DecidableEq, Repr

/-- A trace input value: its declared tensor shape (`node.type().sizes()`),
or `none` when the declared shape is missing so that the accessor fails. -/
structure TraceInput where
  sizes : Option (List ℤ)
deriving DecidableEq, Repr

/-- A trace operation.  `inputs` holds the producer indices
(`i.unique()` for `i` in `trace_node.inputs()`), `num_outputs` the number of
output slots, and `floatShape` the result of matching the source regex
`.*Float\(([0-9 ,]+)\).*` against the printed first output (`some dims` on a
match, else `none`). -/
structure TraceOp where
  scopeName : String
  kind : String
  inputs : List Nat
  num_outputs : Nat
  floatShape : Option (List ℤ)
deriving DecidableEq, Repr

/-- A trace graph: inputs, operations, and the unique indices of the declared
final outputs (`int(n.uniqueName())`). -/
structure TraceGraph where
  inputs : List TraceInput
  ops : List TraceOp
  outputs : List Nat
deriving DecidableEq, Repr

/-- Allocate a fresh set object on the heap, returning its reference. -/
def allocSet (st : GState) (v : SetObj) : GState × Nat :=
  ({ st with heap := st.heap ++ [v] }, st.heap.length)

/-- Allocate a fresh node object in the arena. -/
def pushObj (st : GState) (n : Node) : GState :=
  { st with objs := st.objs ++ [n] }

/-- `self.nodes.append(node)`. -/
def pushNodeId (st : GState) (a : Nat) : GState :=
  { st with nodes := st.nodes ++ [a] }

/-- Node.__init__ (lines 63-71): allocates a fresh empty `out_nodes` set;
`in_nodes` is the passed set object itself when a set is passed (attribute
aliasing, `isinstance(incoming_nodes, set)` branch) and a fresh empty set
otherwise; `output_shape` is `[shape]` (every call site passes a tuple);
`part` defaults to 10.  Returns the new node object's arena id. -/
def newNode (st : GState) (scope : String) (idx : Nat) (ty : NodeTypes)
    (shape : List ℤ) (incoming : Option Nat) (weight : PyWeight) : GState × Nat :=
  let a1 := allocSet st []
  let a2 : GState × Nat :=
    match incoming with
    | some r => (a1.1, r)
    | none => allocSet a1.1 []
  (pushObj a2.1 ⟨scope, idx, ty, weight, 10, [shape], a2.2, a1.2⟩, st.objs.length)

/-- One iteration of the `_add_IO_nodes` loop (lines 134-151) at enumeration
index `idx`. -/
def addIONode (st : GState) (idx : Nat) (inp : TraceInput) : Except BuildExn GState :=
  match inp.sizes with
  | none => .error .sizesError
  | some sizes =>
    let node_weight : ℤ := sizes.foldl (fun w d => w * d) 1
    if idx < st.num_inputs then
      let r := newNode st ("input" ++ toString idx) idx .IN sizes none (.int node_weight)
      .ok { pushNodeId r.1 r.2 with
            num_inputs_buffs_params := r.1.num_inputs_buffs_params + 1 }
    else
      match st.buffer_param_names.get? (idx - st.num_inputs) with
      | none => .error .indexError
      | some nm =>
        let r := newNode st nm idx .BUFF_PARAM sizes none (.int node_weight)
        .ok { pushNodeId r.1 r.2 with
              num_inputs_buffs_params := r.1.num_inputs_buffs_params + 1 }

/-- Graph._add_IO_nodes (lines 130-151). -/
def _add_IO_nodes (st : GState) (input_nodes : List TraceInput) : Except BuildExn GState :=
  input_nodes.enum.foldlM (fun s p => addIONode s p.1 p.2) st

/-- Python `s.startswith(pre)`: string prefix test, character-wise. -/
def pyStartsWith (s pre : String) : Bool :=
  decide (pre.data <+: s.data)

/-- Graph._find_encasing_layer (lines 211-222): the longest profiled-layer
scope that is a prefix of `scopeName`, or `""` if none. -/
def _find_encasing_layer (profiled_layers : List String) (scopeName : String) : String :=
  profiled_layers.foldl
    (fun most layer_scope =>
      if pyStartsWith scopeName layer_scope && most.length < layer_scope.length
      then layer_scope else most) ""

/-- The synthesized scope of an unprofiled op (line 182-183):
`trace_node.scopeName() + "/" + trace_node.kind() + str(idx)`. -/
def raw_op_scope (op : TraceOp) (idx : Nat) : String :=
  op.scopeName ++ "/" ++ op.kind ++ toString idx

/-- Build the set comprehension `\x7bself.nodes[i.unique()] for i in
trace_node.inputs()\x7d` (lines 160-161); IndexError on an out-of-range
producer index. -/
def resolveInputs (st : GState) (idxs : List Nat) : Except BuildExn SetObj :=
  idxs.foldlM
    (fun s i =>
      match st.nodes[i]? with
      | none => .error .indexError
      | some a => .ok (setAdd s a)) []

/-- One iteration of the secondary-output loop body (lines 194-205) for slot
`i ≥ 1`: `out_node = copy(new_node)` (shallow copy — a fresh object with the
same attribute values, in particular the same `in_nodes` set reference),
then `out_node.out_nodes = set()` rebinds only the out-set to a fresh empty
set, `out_node.idx += i`, `out_node.add_in_node(self.nodes[node_idx+i-1])`,
`self.nodes[node_idx+i-1].add_out_node(out_node)`, and the append. -/
def secondarySlot (primaryId node_idx : Nat) (st : GState) (i : Nat) :
    Except BuildExn GState :=
  match st.nodes[node_idx + i - 1]? with
  | none => .error .indexError
  | some prev =>
    let c := st.objs.length
    let st1 := pushObj st (getNode st primaryId)
    let a := allocSet st1 []
    let st3 := updNode a.1 c (fun n => { n with out_nodes := a.2, idx := n.idx + i })
    let st4 := add_in_node st3 c (.node prev)
    let st5 := add_out_node st4 prev (.node c)
    .ok (pushNodeId st5 c)

/-- Lines 174-191 of `_add_OP_nodes`: allocate the `input_nodes` set object,
construct the new node (passing the set object by reference), wire the
incoming edges (`node.add_out_node(new_node)` for each input), and append the
node to `self.nodes`.  Returns the state and the new node's arena id. -/
def opEntry (st : GState) (S : SetObj) (sc : String) (node_idx : Nat)
    (ty : NodeTypes) (shape : List ℤ) : GState × Nat :=
  let a1 := allocSet st S
  let nn := newNode a1.1 sc node_idx ty shape (some a1.2) (.int 0)
  let st2 := S.foldl (fun s x => add_out_node s x (.node nn.2)) nn.1
  (pushNodeId st2 nn.2, nn.2)

/-- One iteration of the `_add_OP_nodes` loop (lines 158-205) at enumeration
index `idx` with `num_extra_nodes = num_extra`; returns the new state and the
updated `num_extra_nodes`.  The profiled-layer branch (line 177) picks the
resolved scope and the LAYER tag, the unprofiled branch the synthesized
raw-op scope and the OP tag; the construction, wiring and append are the
same `opEntry` either way. -/
def processOp (st : GState) (idx num_extra : Nat) (op : TraceOp) :
    Except BuildExn (GState × Nat) := do
  let node_scope := _find_encasing_layer st.profiled_layers op.scopeName
  let input_nodes ← resolveInputs st op.inputs
  let node_idx := st.num_inputs_buffs_params + idx + num_extra
  let shape := match op.floatShape with
    | some dims => dims
    | none => [1]
  let e :=
    if node_scope ≠ "" then
      opEntry st input_nodes node_scope node_idx .LAYER shape
    else
      opEntry st input_nodes (raw_op_scope op idx) node_idx .OP shape
  let st4 ← (List.range op.num_outputs).foldlM
    (fun s i => if i ≠ 0 then secondarySlot e.2 node_idx s i else .ok s) e.1
  .ok (st4, num_extra + (op.num_outputs - 1))

/-- Graph._add_OP_nodes (lines 153-205). -/
def _add_OP_nodes (st : GState) (ops : List TraceOp) : Except BuildExn GState := do
  let r ← ops.enum.foldlM
    (fun (acc : GState × Nat) (p : Nat × TraceOp) => processOp acc.1 p.1 acc.2 p.2) (st, 0)
  .ok r.1

/-- Python `needle in hay` on strings: substring test. -/
def strIn (needle hay : String) : Bool :=
  decide (needle.data <:+: hay.data)

/-- One splice of a removed node (lines 243-249): connect its inputs to its
outputs directly.  The first loop iterates the node's in-set (loop-1 mutates
only out-sets, so the live iteration equals this snapshot); the second loop
iterates the node's out-set as it stands after loop 1 (loop-2 mutates only
in-sets).  `node.out_nodes` / `node.in_nodes` are passed as set objects, read
at call time. -/
def spliceNode (st : GState) (nid : Nat) : GState :=
  let inList := getSet st (getNode st nid).in_nodes
  let st1 := inList.foldl
    (fun s i =>
      let s1 := remove_out_node s i (.node nid)
      add_out_node s1 i (.set (getNode s1 nid).out_nodes)) st
  let outList := getSet st1 (getNode st1 nid).out_nodes
  outList.foldl
    (fun s o =>
      let s1 := remove_in_node s o (.node nid)
      add_in_node s1 o (.set (getNode s1 nid).in_nodes)) st1

/-- One pass of Graph._remove_nodes (lines 236-253): iterate `order`,
splicing nodes satisfying `cond` (evaluated on the current state) and
collecting the others into `optimized_graph`; returns the state, the kept
list and the `changed` flag. -/
def removePass (cond : GState → Nat → Bool) (order : List Nat) (st : GState) :
    GState × List Nat × Bool :=
  order.foldl
    (fun acc nid =>
      if cond acc.1 nid then (spliceNode acc.1 nid, acc.2.1, true)
      else (acc.1, acc.2.1 ++ [nid], acc.2.2)) (st, [], false)

/-- The `while changed` loop of Graph._remove_nodes, with fuel.  A changed
pass strictly shrinks the node list, so `st.nodes.length + 1` fuel always
reaches the unchanged fixed point. -/
def _remove_nodes_aux (cond : GState → Nat → Bool) (reverse : Bool) :
    Nat → GState → GState
  | 0, st => st
  | fuel + 1, st =>
    let order := if reverse then st.nodes.reverse else st.nodes
    let r := removePass cond order st
    let st2 := { r.1 with nodes := r.2.1 }
    if r.2.2 then _remove_nodes_aux cond reverse fuel st2 else st2

/-- Graph._remove_nodes (lines 232-253). -/
def _remove_nodes (cond : GState → Nat → Bool) (reverse : Bool) (st : GState) : GState :=
  _remove_nodes_aux cond reverse (st.nodes.length + 1) st

/-- The condition of Graph._remove_constant_nodes: `"::Constant" in n.scope`. -/
def isConstantNode (st : GState) (nid : Nat) : Bool :=
  strIn "::Constant" (getNode st nid).scope

/-- Graph._remove_constant_nodes (lines 207-209). -/
def _remove_constant_nodes (st : GState) : GState :=
  _remove_nodes isConstantNode false st

/-- The `going_nowhere` condition (lines 227-228): empty out-set and index
not among the declared trace outputs. -/
def going_nowhere (out_indices : List Nat) (st : GState) (nid : Nat) : Bool :=
  (getSet st (getNode st nid).out_nodes).isEmpty
    && !(out_indices.contains (getNode st nid).idx)

/-- Graph._remove_nodes_that_go_nowhere (lines 224-230). -/
def _remove_nodes_that_go_nowhere (st : GState) (trace_outputs : List Nat) : GState :=
  _remove_nodes (going_nowhere trace_outputs) false st

/-- One step of the `_normalize_indices` loop: assign position `p.1` as the
index of the node object `p.2`. -/
def normStep (s : GState) (p : Nat × Nat) : GState :=
  updNode s p.2 (fun n => { n with idx := p.1 })

/-- Graph._normalize_indices (lines 275-277): `node.idx = idx` for each
enumerated node. -/
def _normalize_indices (st : GState) : GState :=
  st.nodes.enum.foldl normStep st

/-- Python `weights.get(k, default)` on the scope-to-weight dict, modelled as
an association list with unique keys. -/
def dictGet (d : List (String × PyWeight)) (k : String) (dflt : PyWeight) : PyWeight :=
  match d.find? (fun p => p.1 == k) with
  | some p => p.2
  | none => dflt

/-- One step of the override loop of Graph.__init__:
`node.weight = weights.get(node.scope, node.weight)`. -/
def overrideStep (weights : List (String × PyWeight)) (s : GState) (nid : Nat) : GState :=
  updNode s nid (fun n => { n with weight := dictGet weights n.scope n.weight })

/-- The override loop of Graph.__init__ (lines 120-121), applied to every
graph node. -/
def apply_weight_overrides (st : GState) (weights : List (String × PyWeight)) : GState :=
  st.nodes.foldl (overrideStep weights) st

/-- Graph._build_graph (lines 123-128). -/
def _build_graph (st : GState) (tg : TraceGraph) : Except BuildExn GState := do
  let st1 ← _add_IO_nodes st tg.inputs
  let st2 ← _add_OP_nodes st1 tg.ops
  let st3 := _remove_constant_nodes st2
  let st4 := _remove_nodes_that_go_nowhere st3 tg.outputs
  .ok (_normalize_indices st4)

/-- Graph.__init__ (lines 112-121): fresh state, `_build_graph`, then the
weight-override loop.  Construction has no exception handler, so any error
from a phase is returned to the caller unchanged. -/
def Graph_init (profiled_layers : List String) (num_inputs : Nat)
    (buffer_param_names : List String) (tg : TraceGraph)
    (weights : List (String × PyWeight)) : Except BuildExn GState := do
  let st0 : GState := ⟨[], [], [], profiled_layers, num_inputs, buffer_param_names, 0⟩
  let st1 ← _build_graph st0 tg
  .ok (apply_weight_overrides st1 weights)

/-- Graph.get_weights (lines 267-268). -/
def get_weights (st : GState) : List PyWeight :=
  st.nodes.map (fun nid => (getNode st nid).weight)

/-- Graph.adjacency_list (lines 270-273): per node in list order, the `idx`
values of the members of `out_nodes.union(in_nodes)` (undirected) or of
`out_nodes` (directed). -/
def adjacency_list (st : GState) (directed : Bool) : List (List Nat) :=
  if !directed then
    st.nodes.map (fun nid =>
      (setUnionUpd (getSet st (getNode st nid).out_nodes)
        (getSet st (getNode st nid).in_nodes)).map (fun m => (getNode st m).idx))
  else
    st.nodes.map (fun nid =>
      (getSet st (getNode st nid).out_nodes).map (fun m => (getNode st m).idx))

/-- The out-neighbour set of node object `a`, dereferenced. -/
def outSet (st : GState) (a : Nat) : SetObj :=
  getSet st (getNode st a).out_nodes

/-- The in-neighbour set of node object `a`, dereferenced. -/
def inSet (st : GState) (a : Nat) : SetObj :=
  getSet st (getNode st a).in_nodes

/-- Every listed node object exists in the arena. -/
def IdsValid (st : GState) : Prop :=
  ∀ a ∈ st.nodes, a < st.objs.length

instance (st : GState) : Decidable (IdsValid st) := by
  unfold IdsValid
  infer_instance



/-- Every node object's set references point into the heap. -/
def RefsValid (st : GState) : Prop :=
  ∀ n ∈ st.objs, n.in_nodes < st.heap.length ∧ n.out_nodes < st.heap.length

instance (st : GState) : Decidable (RefsValid st) := by
  unfold RefsValid
  infer_instance

/-- Bidirectional edge consistency over the graph's node list. -/
def Consistent (st : GState) : Prop :=
  ∀ a ∈ st.nodes, ∀ b ∈ st.nodes, (b ∈ outSet st a ↔ a ∈ inSet st b)

/-- Edge closure: every edge endpoint is itself a listed node. -/
def Closed (st : GState) : Prop :=
  ∀ a ∈ st.nodes, (∀ b ∈ outSet st a, b ∈ st.nodes) ∧ (∀ b ∈ inSet st a, b ∈ st.nodes)

instance (st : GState) : Decidable (Consistent st) := by
  unfold Consistent
  infer_instance

instance (st : GState) : Decidable (Closed st) := by
  unfold Closed
  infer_instance

/-- Characterization of the graph state reached from loop-entry state `B`
(the primary node of a multi-output op just appended: arena id `N`, record
`prim`, list position `node_idx`, in-set contents `S`) after `m`
secondary-output slots of the `_add_OP_nodes` loop have been processed. -/
structure SlotInv (B : GState) (N node_idx : Nat) (prim : Node) (S : SetObj)
    (m : Nat) (st : GState) : Prop where
  objs_len : st.objs.length = B.objs.length + m
  heap_len : st.heap.length = B.heap.length + m
  nodes_eq : st.nodes = B.nodes ++ (List.range' 1 m).map (fun i => N + i)
  old_node : ∀ a, a < B.objs.length → getNode st a = getNode B a
  sec_node : ∀ i, 1 ≤ i → i ≤ m →
    getNode st (N + i) =
      { prim with idx := prim.idx + i, out_nodes := B.heap.length + i - 1 }
  shared_in : getSet st prim.in_nodes = S ++ (List.range m).map (fun i => N + i)
  prim_out : getSet st prim.out_nodes = if m = 0 then [] else [N + 1]
  sec_out : ∀ i, 1 ≤ i → i ≤ m →
    getSet st (B.heap.length + i - 1) = if i = m then [] else [N + i + 1]
  heap_frame : ∀ r, r < B.heap.length → r ≠ prim.in_nodes → r ≠ prim.out_nodes →
    getSet st r = getSet B r
  fields_eq : st.profiled_layers = B.profiled_layers ∧ st.num_inputs = B.num_inputs ∧
    st.buffer_param_names = B.buffer_param_names ∧
    st.num_inputs_buffs_params = B.num_inputs_buffs_params

/-- The record of the primary node that one `_add_OP_nodes` iteration at
enumeration index `idx` creates on state `st` (scope and tag according to the
profiled-layer resolution; fresh in-set reference `st.heap.length`, fresh
out-set reference `st.heap.length + 1`), assuming the running `node_idx`
equals `st.nodes.length`. -/
def opPrimary (st : GState) (idx : Nat) (op : TraceOp) : Node :=
  { scope :=
      if _find_encasing_layer st.profiled_layers op.scopeName ≠ "" then
        _find_encasing_layer st.profiled_layers op.scopeName
      else raw_op_scope op idx,
    idx := st.nodes.length,
    type :=
      if _find_encasing_layer st.profiled_layers op.scopeName ≠ "" then
        NodeTypes.LAYER
      else NodeTypes.OP,
    weight := .int 0,
    part := 10,
    output_shape := [match op.floatShape with | some dims => dims | none => [1]],
    in_nodes := st.heap.length,
    out_nodes := st.heap.length + 1 }

/-- Full effect of one `_add_OP_nodes` iteration with `k` output slots on
state `st`: the resolved input set is `S`, the primary node record is `prim`,
and `stF` is the resulting state.  `st.objs.length` is the primary's arena
id; the `k - 1` secondary bookkeeping nodes follow it. -/
structure OpEffect (st : GState) (k : Nat) (S : SetObj) (prim : Node)
    (stF : GState) : Prop where
  nodes_eq : stF.nodes =
    st.nodes ++ (List.range k).map (fun i => st.objs.length + i)
  objs_len : stF.objs.length = st.objs.length + k
  heap_len : stF.heap.length = st.heap.length + 1 + k
  old_node : ∀ a, a < st.objs.length → getNode stF a = getNode st a
  prim_node : getNode stF st.objs.length = prim
  sec_node : ∀ i, 1 ≤ i → i ≤ k - 1 →
    getNode stF (st.objs.length + i) =
      { prim with idx := prim.idx + i, out_nodes := st.heap.length + 1 + i }
  shared_in : getSet stF st.heap.length =
    S ++ (List.range (k - 1)).map (fun i => st.objs.length + i)
  prim_out : getSet stF (st.heap.length + 1) =
    if k - 1 = 0 then [] else [st.objs.length + 1]
  sec_out : ∀ i, 1 ≤ i → i ≤ k - 1 →
    getSet stF (st.heap.length + 1 + i) =
      if i = k - 1 then [] else [st.objs.length + i + 1]
  old_set_mem : ∀ r, r < st.heap.length → ∀ y,
    (y ∈ getSet stF r ↔ y ∈ getSet st r ∨
      (y = st.objs.length ∧ ∃ x ∈ S, (getNode st x).out_nodes = r))
  old_set_frame : ∀ r, r < st.heap.length →
    (∀ x ∈ S, (getNode st x).out_nodes ≠ r) → getSet stF r = getSet st r
  fields_eq : stF.profiled_layers = st.profiled_layers ∧
    stF.num_inputs = st.num_inputs ∧
    stF.buffer_param_names = st.buffer_param_names ∧
    stF.num_inputs_buffs_params = st.num_inputs_buffs_params

/-- A 22-op trace of unprofiled ops, all without inputs: op 1 has kind
aten::atan2 and op 21 kind aten::atan, so their synthesized raw-op scopes
collide ("/aten::atan2" ++ "1" = "/aten::atan" ++ "21"). -/
def atanOps : List TraceOp :=
  (List.range 22).map (fun j =>
    if j = 1 then ⟨"", "aten::atan2", [], 1, none⟩
    else if j = 21 then ⟨"", "aten::atan", [], 1, none⟩
    else ⟨"", "x", [], 1, none⟩)

/-- The graph state built by `_add_OP_nodes` from `atanOps` on the empty
state. -/
def atanState : GState :=
  match _add_OP_nodes ⟨[], [], [], [], 0, [], 0⟩ atanOps with
  | .ok s => s
  | .error _ => ⟨[], [], [], [], 0, [], 0⟩

/-- The graph state built from one sized input and one 3-output op consuming
it (`_add_IO_nodes` then `_add_OP_nodes`). -/
def multiOutState : GState :=
  match (do
      let s1 ← _add_IO_nodes ⟨[], [], [], [], 1, [], 0⟩ [⟨some [2, 3]⟩]
      _add_OP_nodes s1 [⟨"", "aten::lstm", [0], 3, none⟩] : Except BuildExn GState) with
  | .ok s => s
  | .error _ => ⟨[], [], [], [], 0, [], 0⟩

/-- The graph state built from one sized input and one 2-output op consuming
it. -/
def twoOutState : GState :=
  match (do
      let s1 ← _add_IO_nodes ⟨[], [], [], [], 1, [], 0⟩ [⟨some [2, 3]⟩]
      _add_OP_nodes s1 [⟨"", "aten::mul", [0], 2, some [2, 3]⟩] : Except BuildExn GState) with
  | .ok s => s
  | .error _ => ⟨[], [], [], [], 0, [], 0⟩

/-- A consistent two-node graph state (an input feeding an op), with indices
equal to positions: heap slots are out(0)=[1], in(0)=[], out(1)=[], in(1)=[0]. -/
def twoNodeState : GState :=
  ⟨[[1], [], [], [0]],
   [⟨"input0", 0, .IN, .int 1, 10, [[2]], 1, 0⟩, ⟨"op", 1, .OP, .int 0, 10, [[1]], 3, 2⟩],
   [0, 1], [], 1, [], 1⟩

/-- A one-node graph state whose single node is the INPUT node `input0`
(weight 7): the state the class produces for a trace with one sized input and
no ops. -/
def inputOnlyState : GState :=
  ⟨[[], []], [⟨"input0", 0, .IN, .int 7, 10, [[2]], 1, 0⟩], [0], [], 1, [], 1⟩

/-- The body of the first splice loop of Graph._remove_nodes (lines 244-246),
factored out of `spliceNode`: disconnect the removed node from in-neighbour
`i` and union the removed node's live out-set into `i`'s out-set. -/
def spliceOutBody (nid : Nat) (s : GState) (i : Nat) : GState :=
  let s1 := remove_out_node s i (.node nid)
  add_out_node s1 i (.set (getNode s1 nid).out_nodes)

/-- The body of the second splice loop (lines 247-249), factored out of
`spliceNode`. -/
def spliceInBody (nid : Nat) (s : GState) (o : Nat) : GState :=
  let s1 := remove_in_node s o (.node nid)
  add_in_node s1 o (.set (getNode s1 nid).in_nodes)

/-- Separation of edge-set objects: no two listed nodes share an in-set or an
out-set object, and no listed node's in-set object is a listed node's out-set
object.  This holds when every node owns its two set objects — the situation
the spec assumes — and fails under the shallow-copy sharing of multi-output
ops. -/
def SepRefs (st : GState) : Prop :=
  ∀ a ∈ st.nodes, ∀ b ∈ st.nodes,
    ((getNode st a).in_nodes = (getNode st b).in_nodes → a = b) ∧
    ((getNode st a).out_nodes = (getNode st b).out_nodes → a = b) ∧
    (getNode st a).in_nodes ≠ (getNode st b).out_nodes

instance (st : GState) : Decidable (SepRefs st) := by
  unfold SepRefs
  infer_instance

/-- A consistent four-node chain x → A → B → y in which the two middle nodes
A and B are constant-scoped ops; every node owns two distinct set objects.
Heap: in(0)=r0, out(0)=r1, in(1)=r2, out(1)=r3, in(2)=r4, out(2)=r5,
in(3)=r6, out(3)=r7. -/
def chainState : GState :=
  ⟨[[], [1], [0], [2], [1], [3], [2], []],
   [⟨"x", 0, .IN, .int 0, 10, [], 0, 1⟩,
    ⟨"t::Constant", 1, .OP, .int 0, 10, [], 2, 3⟩,
    ⟨"u::Constant", 2, .OP, .int 0, 10, [], 4, 5⟩,
    ⟨"y", 3, .OP, .int 0, 10, [], 6, 7⟩],
   [0, 1, 2, 3], [], 1, [], 1⟩

theorem list_getD_set {α : Type} (l : List α) (i : Nat) (v : α) (j : Nat) (d : α) :
    (l.set i v).getD j d = if j = i ∧ i < l.length then v else l.getD j d := by
  simp only [List.getD, List.get?_eq_getElem?]
  rw [List.getElem?_set]
  by_cases h1 : i = j
  · subst h1
    by_cases h2 : i < l.length
    · rw [if_pos rfl, if_pos h2, if_pos ⟨rfl, h2⟩, Option.getD_some]
    · rw [if_pos rfl, if_neg h2, if_neg (by omega), Option.getD_none,
        List.getElem?_eq_none (Nat.le_of_not_lt h2), Option.getD_none]
  · rw [if_neg h1, if_neg (by omega)]

theorem list_set_getD_self {α : Type} (l : List α) (i : Nat) (d : α) :
    l.set i (l.getD i d) = l := by
  apply List.ext_getElem?
  intro n
  rw [List.getElem?_set]
  by_cases h1 : i = n
  · subst h1
    by_cases h2 : i < l.length
    · rw [if_pos rfl, if_pos h2]
      simp only [List.getD, List.get?_eq_getElem?]
      rw [List.getElem?_eq_getElem h2, Option.getD_some]
    · rw [if_pos rfl, if_neg h2, List.getElem?_eq_none (Nat.le_of_not_lt h2)]
  · rw [if_neg h1]

theorem list_getD_append {α : Type} (l : List α) (x : α) (j : Nat) (d : α) :
    (l ++ [x]).getD j d = if j = l.length then x else l.getD j d := by
  simp only [List.getD, List.get?_eq_getElem?]
  rw [List.getElem?_append]
  by_cases h : j < l.length
  · rw [if_pos h, if_neg (by omega)]
  · rw [if_neg h]
    by_cases h2 : j = l.length
    · subst h2
      simp
    · rw [if_neg h2, List.getElem?_eq_none (Nat.le_of_not_lt h)]
      have hx : ([x] : List α)[j - l.length]? = none := by
        apply List.getElem?_eq_none
        simp only [List.length_singleton]
        omega
      rw [hx]

theorem getSet_setSet (st : GState) (r : Nat) (v : SetObj) (r' : Nat) :
    getSet (setSet st r v) r' = if r' = r ∧ r < st.heap.length then v else getSet st r' := by
  show (st.heap.set r v).getD r' [] = _
  rw [list_getD_set]
  rfl

theorem setSet_getSet (st : GState) (r : Nat) :
    setSet st r (getSet st r) = st := by
  show ({ st with heap := st.heap.set r (st.heap.getD r []) } : GState) = st
  rw [list_set_getD_self]

theorem getNode_setSet (st : GState) (r : Nat) (v : SetObj) (a : Nat) :
    getNode (setSet st r v) a = getNode st a := rfl

theorem getSet_updNode (st : GState) (a : Nat) (f : Node → Node) (r : Nat) :
    getSet (updNode st a f) r = getSet st r := rfl

theorem getNode_updNode (st : GState) (a : Nat) (f : Node → Node) (a' : Nat) :
    getNode (updNode st a f) a' =
      if a' = a ∧ a < st.objs.length then f (getNode st a) else getNode st a' := by
  show (st.objs.set a (f (st.objs.getD a default))).getD a' default = _
  rw [list_getD_set]
  rfl

theorem getSet_alloc (st : GState) (v : SetObj) (r : Nat) :
    getSet (allocSet st v).1 r = if r = st.heap.length then v else getSet st r := by
  show (st.heap ++ [v]).getD r [] = _
  rw [list_getD_append]
  rfl

theorem getNode_alloc (st : GState) (v : SetObj) (a : Nat) :
    getNode (allocSet st v).1 a = getNode st a := rfl

theorem getNode_pushObj (st : GState) (n : Node) (a : Nat) :
    getNode (pushObj st n) a = if a = st.objs.length then n else getNode st a := by
  show (st.objs ++ [n]).getD a default = _
  rw [list_getD_append]
  rfl

theorem getSet_pushObj (st : GState) (n : Node) (r : Nat) :
    getSet (pushObj st n) r = getSet st r := rfl

theorem getNode_pushNodeId (st : GState) (a : Nat) (a' : Nat) :
    getNode (pushNodeId st a) a' = getNode st a' := rfl

theorem getSet_pushNodeId (st : GState) (a : Nat) (r : Nat) :
    getSet (pushNodeId st a) r = getSet st r := rfl

theorem mem_setAdd (s : SetObj) (x y : Nat) :
    y ∈ setAdd s x ↔ y ∈ s ∨ y = x := by
  by_cases h : x ∈ s
  · simp only [setAdd, if_pos h]
    constructor
    · exact fun hy => Or.inl hy
    · rintro (hy | rfl) <;> [exact hy; exact h]
  · simp [setAdd, if_neg h]

theorem mem_setDiscard (s : SetObj) (x y : Nat) :
    y ∈ setDiscard s x ↔ y ∈ s ∧ y ≠ x := by
  simp [setDiscard]

theorem mem_setUnionUpd (s t : SetObj) (y : Nat) :
    y ∈ setUnionUpd s t ↔ y ∈ s ∨ y ∈ t := by
  induction t generalizing s with
  | nil => simp [setUnionUpd]
  | cons a t ih =>
    simp only [setUnionUpd, List.foldl_cons] at *
    rw [ih, mem_setAdd]
    simp only [List.mem_cons]
    tauto

theorem setDiscard_of_not_mem (s : SetObj) (x : Nat) (h : x ∉ s) :
    setDiscard s x = s := by
  rw [setDiscard, List.filter_eq_self]
  intro y hy
  simp only [ne_eq, decide_eq_true_eq]
  rintro rfl
  exact h hy

/-- C10: for an argument value that is neither a Node instance nor a set, each
of the four edge mutators of Node is a silent no-op leaving the whole state —
in particular both edge sets of the node — unchanged, and removing a node
that is not present in the respective edge set also changes nothing.  In the
source every branch of the four methods is guarded by `isinstance` checks
that both fail for such an argument, and Python's `set.discard` is
exception-free; the methods are total and raise nothing. -/
theorem node_mutators_silent_noop (st : GState) (self : Nat) (a : Nat)
    (hinA : a ∉ inSet st self) (houtA : a ∉ outSet st self) :
    add_out_node st self .other = st ∧
    add_in_node st self .other = st ∧
    remove_in_node st self .other = st ∧
    remove_out_node st self .other = st ∧
    remove_in_node st self (.node a) = st ∧
    remove_out_node st self (.node a) = st := by
  have hinA2 : a ∉ getSet st (getNode st self).in_nodes := hinA
  have houtA2 : a ∉ getSet st (getNode st self).out_nodes := houtA
  refine ⟨rfl, rfl, rfl, rfl, ?_, ?_⟩
  · show setSet st (getNode st self).in_nodes
      (setDiscard (getSet st (getNode st self).in_nodes) a) = st
    rw [setDiscard_of_not_mem _ _ hinA2, setSet_getSet]
  · show setSet st (getNode st self).out_nodes
      (setDiscard (getSet st (getNode st self).out_nodes) a) = st
    rw [setDiscard_of_not_mem _ _ houtA2, setSet_getSet]

/-- C10 witness: the mutators are no-ops at a concrete state and argument. -/
theorem node_mutators_silent_noop_witness :
    add_out_node ⟨[[1], []], [⟨"x", 0, .OP, .int 0, 10, [], 1, 0⟩], [0], [], 0, [], 0⟩ 0 .other
      = ⟨[[1], []], [⟨"x", 0, .OP, .int 0, 10, [], 1, 0⟩], [0], [], 0, [], 0⟩ ∧
    remove_in_node ⟨[[1], []], [⟨"x", 0, .OP, .int 0, 10, [], 1, 0⟩], [0], [], 0, [], 0⟩ 0
        (.node 5)
      = ⟨[[1], []], [⟨"x", 0, .OP, .int 0, 10, [], 1, 0⟩], [0], [], 0, [], 0⟩ := by
  have h := node_mutators_silent_noop
    ⟨[[1], []], [⟨"x", 0, .OP, .int 0, 10, [], 1, 0⟩], [0], [], 0, [], 0⟩ 0 5
    (by decide) (by decide)
  exact ⟨h.1, h.2.2.2.2.1⟩

/-- C2 counterexample: for the timing record with forward time 3/4 ms and
backward time 0, the source computes `int(100*(3/4+0)/2) = int(37.5) = 37`,
while the claimed `round(100*(forward+backward)/2)` is `38`. -/
theorem weight_func_truncates_not_rounds :
    weight_func (.timing (3 / 4) 0) = 37 ∧
    round ((100 * ((3 : ℚ) / 4 + 0)) / 2) = 38 ∧ (37 : ℤ) ≠ 38 := by
  refine ⟨?_, ?_, by decide⟩
  · show pyInt (100 * ((3 : ℚ) / 4 + 0) / 2) = 37
    rw [pyInt, if_pos (by norm_num)]
    norm_num [Int.floor_eq_iff]
  · rw [round_eq]
    norm_num [Int.floor_eq_iff]

/-- C2 amended: `weight_func` returns the truncation toward zero
(`int(...)`, equal to the floor for the nonnegative times produced by
profiling) of `100*(forward_time+backward_time)/2` on a profiled-layer timing
record — not the rounding — and returns exactly 0 for every non-timing
weight value. -/
theorem weight_func_spec (f b : ℚ) (h : 0 ≤ f + b) (n : ℤ) :
    weight_func (.timing f b) = ⌊100 * (f + b) / 2⌋ ∧ weight_func (.int n) = 0 := by
  refine ⟨?_, rfl⟩
  show pyInt _ = _
  rw [pyInt, if_pos (by positivity)]

/-- C2 witness: the amended statement at the concrete record (1/2, 1/4). -/
theorem weight_func_spec_witness :
    weight_func (.timing (1 / 2) (1 / 4)) = 37 ∧ weight_func (.int 6) = 0 := by
  have h := weight_func_spec (1 / 2) (1 / 4) (by norm_num) 6
  refine ⟨h.1.trans ?_, h.2⟩
  norm_num [Int.floor_eq_iff]

theorem normStep_objs_length (s : GState) (p : Nat × Nat) :
    (normStep s p).objs.length = s.objs.length := by
  simp [normStep, updNode]

theorem normFold_objs_length (l : List (Nat × Nat)) (st : GState) :
    (l.foldl normStep st).objs.length = st.objs.length := by
  induction l generalizing st with
  | nil => rfl
  | cons x t ih => rw [List.foldl_cons, ih, normStep_objs_length]

theorem normFold_nodes (l : List (Nat × Nat)) (st : GState) :
    (l.foldl normStep st).nodes = st.nodes := by
  induction l generalizing st with
  | nil => rfl
  | cons x t ih => rw [List.foldl_cons, ih]; rfl

theorem normFold_frame (l : List (Nat × Nat)) (st : GState) (a : Nat)
    (ha : a ∉ l.map Prod.snd) :
    getNode (l.foldl normStep st) a = getNode st a := by
  induction l generalizing st with
  | nil => rfl
  | cons x t ih =>
    simp only [List.map_cons, List.mem_cons] at ha
    push_neg at ha
    rw [List.foldl_cons, ih _ ha.2]
    show getNode (updNode st x.2 _) a = getNode st a
    rw [getNode_updNode, if_neg (by intro h; exact ha.1 h.1)]

theorem normFold_getNode (ids : List Nat) (n : Nat) (st : GState) (p : Nat) (a : Nat)
    (hnd : ids.Nodup) (ha : a < st.objs.length) (hp : ids[p]? = some a) :
    getNode ((List.enumFrom n ids).foldl normStep st) a =
      { getNode st a with idx := n + p } := by
  induction ids generalizing n st p with
  | nil => simp at hp
  | cons b t ih =>
    rw [List.enumFrom_cons, List.foldl_cons]
    rcases List.nodup_cons.mp hnd with ⟨hbt, hndt⟩
    cases p with
    | zero =>
      rw [List.getElem?_cons_zero, Option.some_inj] at hp
      have hbt2 : a ∉ t := hp ▸ hbt
      rw [normFold_frame _ _ _ (by rw [List.enumFrom_map_snd]; exact hbt2)]
      show getNode (updNode st b (fun nd => { nd with idx := n })) a = _
      rw [getNode_updNode, if_pos ⟨hp.symm, hp ▸ ha⟩, hp, Nat.add_zero]
    | succ p =>
      rw [List.getElem?_cons_succ] at hp
      have hat : a ∈ t := by
        rcases List.getElem?_eq_some_iff.mp hp with ⟨hlt, hget⟩
        exact hget ▸ List.getElem_mem hlt
      have hab : a ≠ b := fun h => hbt (h ▸ hat)
      have h1 : getNode (normStep st (n, b)) a = getNode st a := by
        show getNode (updNode st b (fun nd => { nd with idx := n })) a = getNode st a
        rw [getNode_updNode, if_neg (by intro h; exact hab h.1)]
      rw [ih (n + 1) (normStep st (n, b)) p hndt
        (by rw [normStep_objs_length]; exact ha) hp, h1]
      have hnp : n + 1 + p = n + (p + 1) := by omega
      rw [hnp]

theorem updNode_id (st : GState) (a : Nat) (f : Node → Node)
    (h : f (getNode st a) = getNode st a) :
    updNode st a f = st := by
  show ({ st with objs := st.objs.set a (f (getNode st a)) } : GState) = st
  rw [h]
  show ({ st with objs := st.objs.set a (st.objs.getD a default) } : GState) = st
  rw [list_set_getD_self]

theorem foldl_fixed {α : Type} (f : GState → α → GState) (st : GState) (l : List α)
    (h : ∀ x ∈ l, f st x = st) : l.foldl f st = st := by
  induction l with
  | nil => rfl
  | cons x t ih =>
    rw [List.foldl_cons, h x (List.mem_cons_self x t)]
    exact ih (fun y hy => h y (List.mem_cons_of_mem x hy))

/-- C9: after one application of `_normalize_indices` every node's index
equals its position in the node sequence (hence indices are contiguous
0..N-1), and a second application is the identity on the resulting state.
Hypotheses: the node list holds distinct, valid object ids — true of every
graph the class builds, since each append allocates a fresh object. -/
theorem normalize_indices_spec (st : GState) (hnd : st.nodes.Nodup) (hvalid : IdsValid st) :
    (∀ p a, st.nodes[p]? = some a →
      (getNode (_normalize_indices st) a).idx = p) ∧
    _normalize_indices (_normalize_indices st) = _normalize_indices st := by
  have hchar : ∀ p a, st.nodes[p]? = some a →
      getNode (_normalize_indices st) a = { getNode st a with idx := p } := by
    intro p a hp
    have ha : a < st.objs.length := by
      apply hvalid
      rcases List.getElem?_eq_some_iff.mp hp with ⟨hlt, hget⟩
      exact hget ▸ List.getElem_mem hlt
    have := normFold_getNode st.nodes 0 st p a hnd ha hp
    rw [Nat.zero_add] at this
    exact this
  refine ⟨fun p a hp => by rw [hchar p a hp], ?_⟩
  show (_normalize_indices st).nodes.enum.foldl normStep (_normalize_indices st)
      = _normalize_indices st
  have hn : (_normalize_indices st).nodes = st.nodes := normFold_nodes _ _
  rw [hn]
  apply foldl_fixed
  intro x hx
  have hx2 : st.nodes[x.1]? = some x.2 := List.mem_enum_iff_getElem?.mp hx
  show updNode _ x.2 _ = _
  apply updNode_id
  rw [hchar x.1 x.2 hx2]

/-- C9 witness: normalization at a concrete two-node graph with scrambled
indices. -/
theorem normalize_indices_spec_witness :
    (getNode (_normalize_indices
        ⟨[], [⟨"a", 7, .OP, .int 0, 10, [], 0, 0⟩, ⟨"b", 3, .OP, .int 0, 10, [], 0, 0⟩],
          [1, 0], [], 0, [], 0⟩) 1).idx = 0 ∧
    _normalize_indices (_normalize_indices
        ⟨[], [⟨"a", 7, .OP, .int 0, 10, [], 0, 0⟩, ⟨"b", 3, .OP, .int 0, 10, [], 0, 0⟩],
          [1, 0], [], 0, [], 0⟩) =
      _normalize_indices
        ⟨[], [⟨"a", 7, .OP, .int 0, 10, [], 0, 0⟩, ⟨"b", 3, .OP, .int 0, 10, [], 0, 0⟩],
          [1, 0], [], 0, [], 0⟩ := by
  have h := normalize_indices_spec
    ⟨[], [⟨"a", 7, .OP, .int 0, 10, [], 0, 0⟩, ⟨"b", 3, .OP, .int 0, 10, [], 0, 0⟩],
      [1, 0], [], 0, [], 0⟩ (by decide) (by decide)
  exact ⟨h.1 0 1 (by decide), h.2⟩

theorem overrideStep_objs_length (ws : List (String × PyWeight)) (s : GState) (nid : Nat) :
    (overrideStep ws s nid).objs.length = s.objs.length := by
  simp [overrideStep, updNode]

theorem overrideFold_frame (ws : List (String × PyWeight)) (l : List Nat) (st : GState)
    (a : Nat) (ha : a ∉ l) :
    getNode (l.foldl (overrideStep ws) st) a = getNode st a := by
  induction l generalizing st with
  | nil => rfl
  | cons x t ih =>
    simp only [List.mem_cons] at ha
    push_neg at ha
    rw [List.foldl_cons, ih _ ha.2]
    show getNode (updNode st x _) a = getNode st a
    rw [getNode_updNode, if_neg (by intro h; exact ha.1 h.1)]

theorem dictGet_idem (d : List (String × PyWeight)) (k : String) (v : PyWeight) :
    dictGet d k (dictGet d k v) = dictGet d k v := by
  unfold dictGet
  cases d.find? (fun p => p.1 == k) <;> rfl

theorem overrideFold_getNode (ws : List (String × PyWeight)) (l : List Nat) (st : GState)
    (a : Nat) (ha : a < st.objs.length) (hmem : a ∈ l) :
    getNode (l.foldl (overrideStep ws) st) a =
      { getNode st a with
        weight := dictGet ws (getNode st a).scope (getNode st a).weight } := by
  induction l generalizing st with
  | nil => simp at hmem
  | cons x t ih =>
    rw [List.foldl_cons]
    by_cases hax : a = x
    · subst hax
      have hstep : getNode (overrideStep ws st a) a =
          { getNode st a with
            weight := dictGet ws (getNode st a).scope (getNode st a).weight } := by
        show getNode (updNode st a _) a = _
        rw [getNode_updNode, if_pos ⟨rfl, ha⟩]
      by_cases hat : a ∈ t
      · rw [ih (overrideStep ws st a) (by rw [overrideStep_objs_length]; exact ha) hat,
          hstep]
        rw [dictGet_idem]
      · rw [overrideFold_frame ws t _ a hat, hstep]
    · have hat : a ∈ t := by
        rcases List.mem_cons.mp hmem with h | h
        · exact absurd h hax
        · exact h
      have hstep : getNode (overrideStep ws st x) a = getNode st a := by
        show getNode (updNode st x _) a = getNode st a
        rw [getNode_updNode, if_neg (by intro h; exact hax h.1)]
      rw [ih (overrideStep ws st x) (by rw [overrideStep_objs_length]; exact ha) hat,
        hstep]

/-- C4 counterexample: the override loop is applied to every node, not only
to profiled layers.  On a graph whose only node is the INPUT node `input0`
(weight 7), the override dict with key `input0` rewrites that node's weight
to 5 although its type is IN, not LAYER. -/
theorem weight_overrides_hit_non_layer_node :
    (getNode inputOnlyState 0).type = .IN ∧
    (getNode inputOnlyState 0).type ≠ .LAYER ∧
    (getNode inputOnlyState 0).weight = .int 7 ∧
    (getNode (apply_weight_overrides inputOnlyState [("input0", .int 5)]) 0).weight
      = .int 5 := by
  refine ⟨rfl, by decide, rfl, ?_⟩
  rfl

/-- C4 amended: the override loop sets the weight of every graph node whose
scope is a key of the override dict to the mapped value, regardless of the
node's type; a node whose scope is not a key keeps its weight (the dict
lookup falls back to it), no other field of any node changes, and node
objects outside the graph's node list are untouched. -/
theorem weight_overrides_spec (st : GState) (ws : List (String × PyWeight)) (a : Nat)
    (hvalid : IdsValid st) :
    (a ∈ st.nodes → getNode (apply_weight_overrides st ws) a =
      { getNode st a with
        weight := dictGet ws (getNode st a).scope (getNode st a).weight }) ∧
    (a ∉ st.nodes → getNode (apply_weight_overrides st ws) a = getNode st a) := by
  constructor
  · intro hmem
    exact overrideFold_getNode ws st.nodes st a (hvalid a hmem) hmem
  · intro hmem
    exact overrideFold_frame ws st.nodes st a hmem

/-- C4 witness: the amended override behaviour at the concrete one-node
graph. -/
theorem weight_overrides_spec_witness :
    getNode (apply_weight_overrides inputOnlyState [("other", .int 9)]) 0 =
      { getNode inputOnlyState 0 with
        weight := dictGet [("other", .int 9)] (getNode inputOnlyState 0).scope
          (getNode inputOnlyState 0).weight } ∧
    getNode (apply_weight_overrides inputOnlyState [("other", .int 9)]) 3 =
      getNode inputOnlyState 3 := by
  have h0 := weight_overrides_spec inputOnlyState [("other", .int 9)] 0 (by decide)
  have h3 := weight_overrides_spec inputOnlyState [("other", .int 9)] 3 (by decide)
  exact ⟨h0.1 (by decide), h3.2 (by decide)⟩

theorem posIdx_of_forall_enum (st : GState)
    (h : ∀ x ∈ st.nodes.enum, (getNode st x.2).idx = x.1) :
    ∀ p a, st.nodes[p]? = some a → (getNode st a).idx = p := by
  intro p a hpa
  exact h (p, a) (List.mem_enum_iff_getElem?.mpr hpa)

theorem adjacency_row (st : GState) (i : Nat) (a : Nat) (hia : st.nodes[i]? = some a) :
    (adjacency_list st false).getD i [] =
      (setUnionUpd (outSet st a) (inSet st a)).map (fun m => (getNode st m).idx) := by
  show (st.nodes.map _).getD i [] = _
  simp only [List.getD, List.get?_eq_getElem?, List.getElem?_map, hia, Option.map_some,
    Option.getD_some]
  rfl

/-- C6: on a graph whose edges are bidirectionally consistent and closed and
whose node indices equal their positions, the undirected adjacency list is
symmetric: whenever index j appears in row i, j is a valid row and index i
appears in row j (rows are the idx images of the union of out- and
in-neighbour sets, in node order). -/
theorem adjacency_list_undirected_symm (st : GState)
    (hcons : Consistent st) (hclosed : Closed st)
    (hpos : ∀ x ∈ st.nodes.enum, (getNode st x.2).idx = x.1)
    (i j : Nat) (hi : i < st.nodes.length)
    (hj : j ∈ (adjacency_list st false).getD i []) :
    j < st.nodes.length ∧ i ∈ (adjacency_list st false).getD j [] := by
  have hpos2 := posIdx_of_forall_enum st hpos
  rcases List.getElem?_eq_some_iff.mpr ⟨hi, rfl⟩ with hia
  have hamem : st.nodes[i] ∈ st.nodes := List.getElem_mem hi
  set a := st.nodes[i] with ha
  rw [adjacency_row st i a hia] at hj
  rcases List.mem_map.mp hj with ⟨m, hm, hmj⟩
  rcases (mem_setUnionUpd _ _ m).mp hm with hmo | hmi
  all_goals {
    first
    | have hmmem : m ∈ st.nodes := (hclosed a hamem).1 m hmo
    | have hmmem : m ∈ st.nodes := (hclosed a hamem).2 m hmi
    rcases List.getElem?_of_mem hmmem with ⟨p, hp⟩
    have hplen : p < st.nodes.length := (List.getElem?_eq_some_iff.mp hp).1
    have hpj : p = j := by rw [← hmj, hpos2 p m hp]
    subst hpj
    refine ⟨hplen, ?_⟩
    rw [adjacency_row st p m hp]
    apply List.mem_map.mpr
    refine ⟨a, ?_, hpos2 i a hia⟩
    apply (mem_setUnionUpd _ _ a).mpr
    first
    | exact Or.inr ((hcons a hamem m hmmem).mp hmo)
    | exact Or.inl ((hcons m hmmem a hamem).mpr hmi)
  }

/-- C6 witness: symmetry at the concrete two-node graph, row 0 contains 1 and
row 1 contains 0. -/
theorem adjacency_list_undirected_symm_witness :
    1 < twoNodeState.nodes.length ∧
    0 ∈ (adjacency_list twoNodeState false).getD 1 [] := by
  have h := adjacency_list_undirected_symm twoNodeState (by decide) (by decide)
    (by decide) 0 1 (by decide) (by decide)
  exact h

theorem resolveInputs_aux_ok (st : GState) (idxs : List Nat) (acc : SetObj)
    (h : ∀ i ∈ idxs, i < st.nodes.length) :
    ∃ S, idxs.foldlM
        (fun s i =>
          match st.nodes[i]? with
          | none => Except.error BuildExn.indexError
          | some a => Except.ok (setAdd s a)) acc = .ok S ∧
      (∀ x, x ∈ S ↔ x ∈ acc ∨ ∃ i ∈ idxs, st.nodes[i]? = some x) := by
  induction idxs generalizing acc with
  | nil =>
    refine ⟨acc, rfl, fun x => ?_⟩
    simp
  | cons i t ih =>
    have hi : i < st.nodes.length := h i (List.mem_cons_self i t)
    have hsome : st.nodes[i]? = some st.nodes[i] :=
      List.getElem?_eq_some_iff.mpr ⟨hi, rfl⟩
    rcases ih (setAdd acc st.nodes[i]) (fun j hj => h j (List.mem_cons_of_mem i hj))
      with ⟨S, hS, hmem⟩
    refine ⟨S, ?_, ?_⟩
    · rw [List.foldlM_cons, hsome]
      exact hS
    · intro x
      rw [hmem x, mem_setAdd]
      constructor
      · rintro (⟨hx | rfl⟩ | ⟨j, hj, hjx⟩)
        · exact Or.inl hx
        · exact Or.inr ⟨i, List.mem_cons_self i t, List.getElem?_eq_some_iff.mpr ⟨hi, rfl⟩⟩
        · exact Or.inr ⟨j, List.mem_cons_of_mem i hj, hjx⟩
      · rintro (hx | ⟨j, hj, hjx⟩)
        · exact Or.inl (Or.inl hx)
        · rcases List.mem_cons.mp hj with rfl | hjt
          · refine Or.inl (Or.inr ?_)
            have := List.getElem?_eq_some_iff.mp hjx
            rcases this with ⟨hlt, heq⟩
            exact heq.symm
          · exact Or.inr ⟨j, hjt, hjx⟩

theorem resolveInputs_ok (st : GState) (idxs : List Nat)
    (h : ∀ i ∈ idxs, i < st.nodes.length) :
    ∃ S, resolveInputs st idxs = .ok S ∧
      (∀ x, x ∈ S ↔ ∃ i ∈ idxs, st.nodes[i]? = some x) := by
  rcases resolveInputs_aux_ok st idxs [] h with ⟨S, hS, hmem⟩
  refine ⟨S, hS, fun x => ?_⟩
  rw [hmem x]
  simp

theorem resolveInputs_aux_error (st : GState) (idxs : List Nat) (acc : SetObj)
    (h : ∃ i ∈ idxs, st.nodes.length ≤ i) :
    idxs.foldlM
        (fun s i =>
          match st.nodes[i]? with
          | none => Except.error BuildExn.indexError
          | some a => Except.ok (setAdd s a)) acc = .error .indexError := by
  induction idxs generalizing acc with
  | nil => simp at h
  | cons j t ih =>
    by_cases hj : j < st.nodes.length
    · have hsome : st.nodes[j]? = some st.nodes[j] :=
        List.getElem?_eq_some_iff.mpr ⟨hj, rfl⟩
      rw [List.foldlM_cons, hsome]
      apply ih
      rcases h with ⟨i, hmem, hge⟩
      rcases List.mem_cons.mp hmem with rfl | hit
      · omega
      · exact ⟨i, hit, hge⟩
    · have hnone : st.nodes[j]? = none :=
        List.getElem?_eq_none (Nat.le_of_not_lt hj)
      rw [List.foldlM_cons, hnone]
      rfl

/-- C3 helper: resolving the input references of an op whose producer list
contains an out-of-range index raises IndexError. -/
theorem resolveInputs_error (st : GState) (idxs : List Nat)
    (h : ∃ i ∈ idxs, st.nodes.length ≤ i) :
    resolveInputs st idxs = .error .indexError :=
  resolveInputs_aux_error st idxs [] h

theorem resolveInputs_mem_nodes (st : GState) (idxs : List Nat) (S : SetObj)
    (hS : resolveInputs st idxs = .ok S)
    (h : ∀ i ∈ idxs, i < st.nodes.length) :
    ∀ x ∈ S, x ∈ st.nodes := by
  rcases resolveInputs_ok st idxs h with ⟨S2, hS2, hmem⟩
  rw [hS2] at hS
  cases hS
  intro x hx
  rcases (hmem x).mp hx with ⟨i, _, hix⟩
  rcases List.getElem?_eq_some_iff.mp hix with ⟨hlt, heq⟩
  exact heq ▸ List.getElem_mem hlt

theorem list_set_append_length {α : Type} (l : List α) (x v : α) :
    (l ++ [x]).set l.length v = l ++ [v] := by
  apply List.ext_getElem?
  intro n
  rw [List.getElem?_set]
  by_cases h : l.length = n
  · subst h
    rw [if_pos rfl, if_pos (by simp), List.getElem?_concat_length]
  · rw [if_neg h, List.getElem?_append, List.getElem?_append]
    by_cases h2 : n < l.length
    · rw [if_pos h2, if_pos h2]
    · rw [if_neg h2, if_neg h2]
      have h3 : 1 ≤ n - l.length := by omega
      rw [List.getElem?_eq_none (l := [x]) (by simpa using h3),
        List.getElem?_eq_none (l := [v]) (by simpa using h3)]

theorem add_out_node_objs (s : GState) (x : Nat) (arg : PyArg) :
    (add_out_node s x arg).objs = s.objs := by
  cases arg <;> rfl

theorem add_out_node_nodes (s : GState) (x : Nat) (arg : PyArg) :
    (add_out_node s x arg).nodes = s.nodes := by
  cases arg <;> rfl

theorem add_out_node_heap_length (s : GState) (x : Nat) (arg : PyArg) :
    (add_out_node s x arg).heap.length = s.heap.length := by
  cases arg <;> simp [add_out_node, setSet]

theorem wiring_objs (S : SetObj) (m : Nat) (st : GState) :
    (S.foldl (fun s x => add_out_node s x (.node m)) st).objs = st.objs := by
  induction S generalizing st with
  | nil => rfl
  | cons x t ih => rw [List.foldl_cons, ih, add_out_node_objs]

theorem wiring_nodes (S : SetObj) (m : Nat) (st : GState) :
    (S.foldl (fun s x => add_out_node s x (.node m)) st).nodes = st.nodes := by
  induction S generalizing st with
  | nil => rfl
  | cons x t ih => rw [List.foldl_cons, ih, add_out_node_nodes]

theorem wiring_heap_length (S : SetObj) (m : Nat) (st : GState) :
    (S.foldl (fun s x => add_out_node s x (.node m)) st).heap.length = st.heap.length := by
  induction S generalizing st with
  | nil => rfl
  | cons x t ih => rw [List.foldl_cons, ih, add_out_node_heap_length]

theorem wiring_fields (S : SetObj) (m : Nat) (st : GState) :
    (S.foldl (fun s x => add_out_node s x (.node m)) st).profiled_layers = st.profiled_layers ∧
    (S.foldl (fun s x => add_out_node s x (.node m)) st).num_inputs = st.num_inputs ∧
    (S.foldl (fun s x => add_out_node s x (.node m)) st).buffer_param_names
      = st.buffer_param_names ∧
    (S.foldl (fun s x => add_out_node s x (.node m)) st).num_inputs_buffs_params
      = st.num_inputs_buffs_params := by
  induction S generalizing st with
  | nil => exact ⟨rfl, rfl, rfl, rfl⟩
  | cons x t ih =>
    rw [List.foldl_cons]
    rcases ih (add_out_node st x (.node m)) with ⟨h1, h2, h3, h4⟩
    refine ⟨h1.trans ?_, h2.trans ?_, h3.trans ?_, h4.trans ?_⟩ <;> cases m <;> rfl

theorem wiring_getNode (S : SetObj) (m : Nat) (st : GState) (a : Nat) :
    getNode (S.foldl (fun s x => add_out_node s x (.node m)) st) a = getNode st a := by
  show (S.foldl (fun s x => add_out_node s x (.node m)) st).objs.getD a default = _
  rw [wiring_objs]
  rfl

theorem wiring_getSet_frame (S : SetObj) (m : Nat) (st : GState) (r : Nat)
    (hr : ∀ x ∈ S, (getNode st x).out_nodes ≠ r) :
    getSet (S.foldl (fun s x => add_out_node s x (.node m)) st) r = getSet st r := by
  induction S generalizing st with
  | nil => rfl
  | cons x t ih =>
    rw [List.foldl_cons]
    have hx : (getNode st x).out_nodes ≠ r := hr x (List.mem_cons_self x t)
    have hstep : getSet (add_out_node st x (.node m)) r = getSet st r := by
      show getSet (setSet st (getNode st x).out_nodes _) r = _
      rw [getSet_setSet, if_neg (by intro h; exact hx h.1.symm)]
    rw [ih (add_out_node st x (.node m))
      (fun y hy => by
        show (getNode (add_out_node st x (.node m)) y).out_nodes ≠ r
        have : getNode (add_out_node st x (.node m)) y = getNode st y := by
          show (add_out_node st x (.node m)).objs.getD y default = _
          rw [add_out_node_objs]
          rfl
        rw [this]
        exact hr y (List.mem_cons_of_mem x hy)), hstep]

theorem wiring_getSet_mem (S : SetObj) (m : Nat) (st : GState) (r y : Nat) :
    y ∈ getSet (S.foldl (fun s x => add_out_node s x (.node m)) st) r ↔
      y ∈ getSet st r ∨
        (y = m ∧ ∃ x ∈ S, (getNode st x).out_nodes = r ∧ r < st.heap.length) := by
  induction S generalizing st with
  | nil => simp
  | cons x t ih =>
    rw [List.foldl_cons, ih]
    have hobjs : ∀ z, getNode (add_out_node st x (.node m)) z = getNode st z := by
      intro z
      show (add_out_node st x (.node m)).objs.getD z default = _
      rw [add_out_node_objs]
      rfl
    have hlen : (add_out_node st x (.node m)).heap.length = st.heap.length :=
      add_out_node_heap_length st x (.node m)
    have hget : ∀ z, z ∈ getSet (add_out_node st x (.node m)) r ↔
        z ∈ getSet st r ∨
          (z = m ∧ (getNode st x).out_nodes = r ∧ r < st.heap.length) := by
      intro z
      show z ∈ getSet (setSet st (getNode st x).out_nodes _) r ↔ _
      rw [getSet_setSet]
      by_cases hc : r = (getNode st x).out_nodes ∧ (getNode st x).out_nodes < st.heap.length
      · obtain ⟨hr1, hr2⟩ := hc
        subst hr1
        rw [if_pos ⟨rfl, hr2⟩, mem_setAdd]
        constructor
        · rintro (hz | rfl)
          · exact Or.inl hz
          · exact Or.inr ⟨rfl, rfl, hr2⟩
        · rintro (hz | ⟨rfl, hrr, hlt⟩)
          · exact Or.inl hz
          · exact Or.inr rfl
      · rw [if_neg hc]
        constructor
        · exact fun hz => Or.inl hz
        · rintro (hz | ⟨rfl, hrr, hlt⟩)
          · exact hz
          · exact absurd ⟨hrr.symm, hrr ▸ hlt⟩ hc
    constructor
    · rintro (hz | ⟨rfl, x2, hx2, hout, hlt⟩)
      · rcases (hget y).mp hz with hz2 | ⟨rfl, hout, hlt⟩
        · exact Or.inl hz2
        · exact Or.inr ⟨rfl, x, List.mem_cons_self x t, hout, hlt⟩
      · rw [hobjs x2] at hout
        rw [hlen] at hlt
        exact Or.inr ⟨rfl, x2, List.mem_cons_of_mem x hx2, hout, hlt⟩
    · rintro (hz | ⟨rfl, x2, hx2, hout, hlt⟩)
      · exact Or.inl ((hget y).mpr (Or.inl hz))
      · rcases List.mem_cons.mp hx2 with rfl | hx2t
        · exact Or.inl ((hget y).mpr (Or.inr ⟨rfl, hout, hlt⟩))
        · exact Or.inr ⟨rfl, x2, hx2t, by rw [hobjs x2]; exact hout, by rw [hlen]; exact hlt⟩

theorem getElem?_range'_one (m i : Nat) (h : i < m) :
    (List.range' 1 m)[i]? = some (1 + i) := by
  rw [List.getElem?_eq_some_iff]
  refine ⟨by simpa using h, ?_⟩
  rw [List.getElem_range']
  simp

theorem updNode_objs (st : GState) (a : Nat) (f : Node → Node) :
    (updNode st a f).objs = st.objs.set a (f (getNode st a)) := rfl

theorem add_in_node_objs (s : GState) (x : Nat) (arg : PyArg) :
    (add_in_node s x arg).objs = s.objs := by
  cases arg <;> rfl

theorem add_in_node_nodes (s : GState) (x : Nat) (arg : PyArg) :
    (add_in_node s x arg).nodes = s.nodes := by
  cases arg <;> rfl

theorem add_in_node_heap_length (s : GState) (x : Nat) (arg : PyArg) :
    (add_in_node s x arg).heap.length = s.heap.length := by
  cases arg <;> simp [add_in_node, setSet]

theorem secondarySlot_spec (pid node_idx i : Nat) (st : GState) (prim : Node) (prev : Nat)
    (hpid : pid < st.objs.length)
    (hprim : getNode st pid = prim)
    (hprev : st.nodes[node_idx + i - 1]? = some prev)
    (hprevlt : prev < st.objs.length)
    (hsig : prim.in_nodes < st.heap.length)
    (hrho : (getNode st prev).out_nodes < st.heap.length)
    (hdist : prim.in_nodes ≠ (getNode st prev).out_nodes) :
    ∃ st',
      secondarySlot pid node_idx st i = .ok st' ∧
      st'.objs = st.objs ++
        [{ prim with idx := prim.idx + i, out_nodes := st.heap.length }] ∧
      st'.nodes = st.nodes ++ [st.objs.length] ∧
      st'.heap.length = st.heap.length + 1 ∧
      getSet st' prim.in_nodes = setAdd (getSet st prim.in_nodes) prev ∧
      getSet st' (getNode st prev).out_nodes =
        setAdd (getSet st (getNode st prev).out_nodes) st.objs.length ∧
      getSet st' st.heap.length = [] ∧
      (∀ r, r < st.heap.length → r ≠ prim.in_nodes →
        r ≠ (getNode st prev).out_nodes → getSet st' r = getSet st r) ∧
      st'.profiled_layers = st.profiled_layers ∧
      st'.num_inputs = st.num_inputs ∧
      st'.buffer_param_names = st.buffer_param_names ∧
      st'.num_inputs_buffs_params = st.num_inputs_buffs_params := by
  have hcopy : getNode (allocSet (pushObj st (getNode st pid)) []).1 st.objs.length = prim := by
    show (pushObj st (getNode st pid)).objs.getD st.objs.length default = prim
    show (st.objs ++ [getNode st pid]).getD st.objs.length default = prim
    rw [list_getD_append, if_pos rfl, hprim]
  set cRec : Node := { prim with idx := prim.idx + i, out_nodes := st.heap.length } with hcRec
  set st3 := updNode (allocSet (pushObj st (getNode st pid)) []).1 st.objs.length (fun n => { n with out_nodes := (allocSet (pushObj st (getNode st pid)) []).2, idx := n.idx + i }) with hst3
  have hst3objs : st3.objs = st.objs ++ [cRec] := by
    rw [hst3, updNode_objs, hcopy]
    show ((st.objs ++ [getNode st pid]).set st.objs.length _) = _
    rw [hprim, list_set_append_length]
    rfl
  have hst3heap : st3.heap = st.heap ++ [[]] := rfl
  have hst3nodes : st3.nodes = st.nodes := rfl
  have hgetc : getNode st3 st.objs.length = cRec := by
    show st3.objs.getD st.objs.length default = cRec
    rw [hst3objs, list_getD_append, if_pos rfl]
  have hgetprev3 : getNode st3 prev = getNode st prev := by
    show st3.objs.getD prev default = _
    rw [hst3objs, List.getD_append _ _ _ _ hprevlt]
    rfl
  have hst3getsig : getSet st3 prim.in_nodes = getSet st prim.in_nodes := by
    show st3.heap.getD prim.in_nodes [] = _
    rw [hst3heap, list_getD_append, if_neg (by omega)]
    rfl
  set st4 := add_in_node st3 st.objs.length (.node prev) with hst4
  have hst4eq : st4 = setSet st3 prim.in_nodes
      (setAdd (getSet st3 prim.in_nodes) prev) := by
    rw [hst4]
    show setSet st3 (getNode st3 st.objs.length).in_nodes
      (setAdd (getSet st3 (getNode st3 st.objs.length).in_nodes) prev) = _
    rw [hgetc]
  have hst4objs : st4.objs = st3.objs := by rw [hst4eq]; rfl
  have hst4nodes : st4.nodes = st3.nodes := by rw [hst4eq]; rfl
  have hst4heaplen : st4.heap.length = st3.heap.length := by
    rw [hst4eq]; simp [setSet]
  have hsig3 : prim.in_nodes < st3.heap.length := by
    rw [hst3heap]; simp only [List.length_append, List.length_singleton]; omega
  have hst4sig : getSet st4 prim.in_nodes = setAdd (getSet st prim.in_nodes) prev := by
    rw [hst4eq, getSet_setSet, if_pos ⟨rfl, hsig3⟩, hst3getsig]
  have hst4frame : ∀ r, r ≠ prim.in_nodes → getSet st4 r = getSet st3 r := by
    intro r hr
    rw [hst4eq, getSet_setSet, if_neg (by intro h; exact hr h.1)]
  have hgetprev4 : getNode st4 prev = getNode st prev := by
    show st4.objs.getD prev default = _
    rw [hst4objs]
    exact hgetprev3
  set st5 := add_out_node st4 prev (.node st.objs.length) with hst5
  have hst5eq : st5 = setSet st4 (getNode st prev).out_nodes
      (setAdd (getSet st4 (getNode st prev).out_nodes) st.objs.length) := by
    rw [hst5]
    show setSet st4 (getNode st4 prev).out_nodes
      (setAdd (getSet st4 (getNode st4 prev).out_nodes) st.objs.length) = _
    rw [hgetprev4]
  have hst5objs : st5.objs = st3.objs := by rw [hst5eq]; exact hst4objs
  have hst5nodes : st5.nodes = st3.nodes := by rw [hst5eq]; exact hst4nodes
  have hst5heaplen : st5.heap.length = st4.heap.length := by
    rw [hst5eq]; simp [setSet]
  have hrho4 : (getNode st prev).out_nodes < st4.heap.length := by
    rw [hst4heaplen, hst3heap]
    simp only [List.length_append, List.length_singleton]
    omega
  have hst4rho : getSet st4 (getNode st prev).out_nodes =
      getSet st (getNode st prev).out_nodes := by
    rw [hst4frame _ (fun h => hdist h.symm)]
    show st3.heap.getD (getNode st prev).out_nodes [] = _
    rw [hst3heap, list_getD_append, if_neg (by omega)]
    rfl
  have hst5rho : getSet st5 (getNode st prev).out_nodes =
      setAdd (getSet st (getNode st prev).out_nodes) st.objs.length := by
    rw [hst5eq, getSet_setSet, if_pos ⟨rfl, hrho4⟩, hst4rho]
  have hst5frame : ∀ r, r ≠ (getNode st prev).out_nodes → getSet st5 r = getSet st4 r := by
    intro r hr
    rw [hst5eq, getSet_setSet, if_neg (by intro h; exact hr h.1)]
  have hsecEq : secondarySlot pid node_idx st i = .ok (pushNodeId st5 st.objs.length) := by
    unfold secondarySlot
    rw [hprev]
  refine ⟨pushNodeId st5 st.objs.length, hsecEq, ?_, ?_, ?_, ?_, ?_, ?_, ?_, ?_, ?_, ?_, ?_⟩
  · show st5.objs = _
    rw [hst5objs, hst3objs]
  · show st5.nodes ++ [st.objs.length] = _
    rw [hst5nodes, hst3nodes]
  · show st5.heap.length = _
    rw [hst5heaplen, hst4heaplen, hst3heap]
    simp
  · show getSet st5 prim.in_nodes = _
    rw [hst5frame _ hdist, hst4sig]
  · show getSet st5 (getNode st prev).out_nodes = _
    exact hst5rho
  · show getSet st5 st.heap.length = []
    rw [hst5frame _ (by omega), hst4frame _ (by omega)]
    show st3.heap.getD st.heap.length [] = []
    rw [hst3heap, list_getD_append, if_pos rfl]
  · intro r hr hr1 hr2
    show getSet st5 r = _
    rw [hst5frame _ hr2, hst4frame _ hr1]
    show st3.heap.getD r [] = _
    rw [hst3heap, list_getD_append, if_neg (by omega)]
    rfl
  · rfl
  · rfl
  · rfl
  · rfl

theorem slotLoop_ok (B : GState) (N node_idx : Nat) (prim : Node) (S : SetObj)
    (hN : B.objs.length = N + 1)
    (hprim : getNode B N = prim)
    (hsig : prim.in_nodes < B.heap.length)
    (hrho : prim.out_nodes < B.heap.length)
    (hsr : prim.in_nodes ≠ prim.out_nodes)
    (hS : getSet B prim.in_nodes = S)
    (hrho0 : getSet B prim.out_nodes = [])
    (hSlt : ∀ y ∈ S, y < N)
    (hnodes_len : B.nodes.length = node_idx + 1)
    (hlast : B.nodes[node_idx]? = some N)
    (m : Nat) :
    ∃ st', ((List.range' 1 m).foldlM
        (fun s i => if i ≠ 0 then secondarySlot N node_idx s i else .ok s) B) = .ok st' ∧
      SlotInv B N node_idx prim S m st' := by
  induction m with
  | zero =>
    refine ⟨B, rfl, ?_⟩
    exact {
      objs_len := rfl
      heap_len := rfl
      nodes_eq := by simp
      old_node := fun a _ => rfl
      sec_node := fun i h1 h0 => absurd (Nat.le_trans h1 h0) (by omega)
      shared_in := by simpa using hS
      prim_out := by simpa using hrho0
      sec_out := fun i h1 h0 => absurd (Nat.le_trans h1 h0) (by omega)
      heap_frame := fun r _ _ _ => rfl
      fields_eq := ⟨rfl, rfl, rfl, rfl⟩ }
  | succ m ih =>
    rcases ih with ⟨A, hA, inv⟩
    have hNlt : N < B.objs.length := by omega
    have hAN : getNode A N = prim := (inv.old_node N hNlt).trans hprim
    have hAobjs : A.objs.length = N + 1 + m := by rw [inv.objs_len, hN]
    have hAheap : A.heap.length = B.heap.length + m := inv.heap_len
    have hprev : A.nodes[node_idx + (1 + m) - 1]? = some (N + m) := by
      have hpos : node_idx + (1 + m) - 1 = node_idx + m := by omega
      rw [hpos, inv.nodes_eq, List.getElem?_append]
      by_cases hm : m = 0
      · subst hm
        rw [if_pos (by omega)]
        simpa using hlast
      · rw [if_neg (by omega), List.getElem?_map, hnodes_len]
        have h1 : node_idx + m - (node_idx + 1) = m - 1 := by omega
        rw [h1, getElem?_range'_one m (m - 1) (by omega)]
        show some (N + (1 + (m - 1))) = some (N + m)
        have h2 : N + (1 + (m - 1)) = N + m := by omega
        rw [h2]
    have hgetAprev : getNode A (N + m) =
        (if m = 0 then prim
         else { prim with idx := prim.idx + m, out_nodes := B.heap.length + m - 1 }) := by
      by_cases hm : m = 0
      · rw [if_pos hm]
        subst hm
        exact hAN
      · rw [if_neg hm]
        exact inv.sec_node m (by omega) (Nat.le_refl m)
    have hprevrho : (getNode A (N + m)).out_nodes =
        (if m = 0 then prim.out_nodes else B.heap.length + m - 1) := by
      rw [hgetAprev]
      by_cases hm : m = 0
      · rw [if_pos hm, if_pos hm]
      · rw [if_neg hm, if_neg hm]
    have hrhoA : (getNode A (N + m)).out_nodes < A.heap.length := by
      rw [hprevrho, hAheap]
      by_cases hm : m = 0
      · rw [if_pos hm]; omega
      · rw [if_neg hm]; omega
    have hdistA : prim.in_nodes ≠ (getNode A (N + m)).out_nodes := by
      rw [hprevrho]
      by_cases hm : m = 0
      · rw [if_pos hm]; exact hsr
      · rw [if_neg hm]; omega
    rcases secondarySlot_spec N node_idx (1 + m) A prim (N + m)
      (by omega) hAN hprev (by omega) (by omega) hrhoA hdistA with
      ⟨st', hok, hobjs, hnodes, hheaplen, hsigset, hrhoset, hfresh, hframe, hf1, hf2, hf3, hf4⟩
    have hNm_not : N + m ∉ S ++ (List.range m).map (fun i => N + i) := by
      intro hmem
      rcases List.mem_append.mp hmem with h | h
      · exact absurd (hSlt _ h) (by omega)
      · rcases List.mem_map.mp h with ⟨j, hj, hje⟩
        rw [List.mem_range] at hj
        omega
    refine ⟨st', ?_, ?_⟩
    · rw [List.range'_1_concat, List.foldlM_append, hA]
      have hone : ([1 + m].foldlM
          (fun s i => if i ≠ 0 then secondarySlot N node_idx s i else .ok s) A)
          = secondarySlot N node_idx A (1 + m) := by
        rw [List.foldlM_cons, if_pos (by omega)]
        show _ >>= _ = _
        cases hsec : secondarySlot N node_idx A (1 + m) <;> rfl
      show (Except.ok A >>= fun b =>
        ([1 + m].foldlM (fun s i => if i ≠ 0 then secondarySlot N node_idx s i else .ok s) b))
        = _
      show ([1 + m].foldlM (fun s i => if i ≠ 0 then secondarySlot N node_idx s i else .ok s) A)
        = _
      rw [hone, hok]
    · refine {
        objs_len := ?_
        heap_len := ?_
        nodes_eq := ?_
        old_node := ?_
        sec_node := ?_
        shared_in := ?_
        prim_out := ?_
        sec_out := ?_
        heap_frame := ?_
        fields_eq := ?_ }
      · rw [hobjs]
        simp only [List.length_append, List.length_singleton]
        omega
      · omega
      · rw [hnodes, inv.nodes_eq, hAobjs, List.range'_1_concat, List.map_append,
          List.append_assoc]
        simp only [List.map_cons, List.map_nil]
        have : N + 1 + m = N + (1 + m) := by omega
        rw [this]
      · intro a ha
        show st'.objs.getD a default = _
        rw [hobjs, List.getD_append _ _ _ _ (by omega)]
        exact inv.old_node a ha
      · intro i h1 h2
        show st'.objs.getD (N + i) default = _
        rw [hobjs]
        by_cases hi : i ≤ m
        · rw [List.getD_append _ _ _ _ (by omega)]
          exact inv.sec_node i h1 hi
        · have hieq : i = m + 1 := by omega
          subst hieq
          rw [list_getD_append, if_pos (by omega)]
          rw [hAheap]
          have e1 : prim.idx + (1 + m) = prim.idx + (m + 1) := by omega
          have e2 : B.heap.length + m = B.heap.length + (m + 1) - 1 := by omega
          rw [e1, e2]
      · rw [hsigset, inv.shared_in, setAdd, if_neg hNm_not, List.range_succ,
          List.map_append, List.append_assoc]
        rfl
      · rw [if_neg (by omega)]
        by_cases hm : m = 0
        · have hre : prim.out_nodes = (getNode A (N + m)).out_nodes := by
            rw [hprevrho, if_pos hm]
          rw [hre, hrhoset, ← hre]
          have h0 : getSet A prim.out_nodes = [] := by
            have := inv.prim_out
            rw [if_pos hm] at this
            exact this
          rw [h0, hAobjs, hm]
          rfl
        · have hre : prim.out_nodes ≠ (getNode A (N + m)).out_nodes := by
            rw [hprevrho, if_neg hm]
            omega
          rw [hframe prim.out_nodes (by omega) (fun h => hsr h.symm) hre]
          have := inv.prim_out
          rw [if_neg hm] at this
          exact this
      · intro i h1 h2
        by_cases hi : i = m + 1
        · subst hi
          rw [if_pos rfl]
          have he : B.heap.length + (m + 1) - 1 = A.heap.length := by omega
          rw [he]
          exact hfresh
        · rw [if_neg hi]
          by_cases him : i = m
          · subst him
            have hm0 : ¬ i = 0 := by omega
            have hre : B.heap.length + i - 1 = (getNode A (N + i)).out_nodes := by
              rw [hprevrho, if_neg hm0]
            rw [hre, hrhoset]
            have h0 : getSet A (getNode A (N + i)).out_nodes = [] := by
              rw [← hre]
              have := inv.sec_out i h1 (Nat.le_refl i)
              rw [if_pos rfl] at this
              exact this
            rw [h0, hAobjs, setAdd, if_neg (by simp)]
            have : N + 1 + i = N + i + 1 := by omega
            rw [this]
            rfl
          · have hilt : i < m := by omega
            have hne2 : B.heap.length + i - 1 ≠ (getNode A (N + m)).out_nodes := by
              rw [hprevrho, if_neg (by omega)]
              omega
            rw [hframe _ (by omega) (by omega) hne2]
            have := inv.sec_out i h1 (by omega)
            rw [if_neg (by omega)] at this
            exact this
      · intro r hr hr1 hr2
        have hne2 : r ≠ (getNode A (N + m)).out_nodes := by
          rw [hprevrho]
          by_cases hm : m = 0
          · rw [if_pos hm]; exact hr2
          · rw [if_neg hm]; omega
        rw [hframe r (by omega) hr1 hne2]
        exact inv.heap_frame r hr hr1 hr2
      · rcases inv.fields_eq with ⟨f1, f2, f3, f4⟩
        exact ⟨hf1.trans f1, hf2.trans f2, hf3.trans f3, hf4.trans f4⟩

theorem except_bind_ok {α β : Type} (a : α) (f : α → Except BuildExn β) :
    (Except.ok a >>= f) = f a := rfl

theorem opEntry_spec (st : GState) (S : SetObj) (sc : String) (node_idx : Nat)
    (ty : NodeTypes) (shape : List ℤ)
    (hSlt : ∀ y ∈ S, y < st.objs.length)
    (hrefs : ∀ y ∈ S, (getNode st y).out_nodes < st.heap.length) :
    (opEntry st S sc node_idx ty shape).2 = st.objs.length ∧
    (opEntry st S sc node_idx ty shape).1.objs.length = st.objs.length + 1 ∧
    (opEntry st S sc node_idx ty shape).1.nodes = st.nodes ++ [st.objs.length] ∧
    (opEntry st S sc node_idx ty shape).1.heap.length = st.heap.length + 2 ∧
    getNode (opEntry st S sc node_idx ty shape).1 st.objs.length =
      ⟨sc, node_idx, ty, .int 0, 10, [shape], st.heap.length, st.heap.length + 1⟩ ∧
    (∀ a, a < st.objs.length →
      getNode (opEntry st S sc node_idx ty shape).1 a = getNode st a) ∧
    getSet (opEntry st S sc node_idx ty shape).1 st.heap.length = S ∧
    getSet (opEntry st S sc node_idx ty shape).1 (st.heap.length + 1) = [] ∧
    (∀ r, r < st.heap.length → ∀ y,
      (y ∈ getSet (opEntry st S sc node_idx ty shape).1 r ↔ y ∈ getSet st r ∨
        (y = st.objs.length ∧ ∃ x ∈ S, (getNode st x).out_nodes = r))) ∧
    (∀ r, r < st.heap.length → (∀ x ∈ S, (getNode st x).out_nodes ≠ r) →
      getSet (opEntry st S sc node_idx ty shape).1 r = getSet st r) ∧
    (opEntry st S sc node_idx ty shape).1.profiled_layers = st.profiled_layers ∧
    (opEntry st S sc node_idx ty shape).1.num_inputs = st.num_inputs ∧
    (opEntry st S sc node_idx ty shape).1.buffer_param_names = st.buffer_param_names ∧
    (opEntry st S sc node_idx ty shape).1.num_inputs_buffs_params
      = st.num_inputs_buffs_params := by
  set prim : Node := ⟨sc, node_idx, ty, .int 0, 10, [shape],
    st.heap.length, st.heap.length + 1⟩ with hprim
  set nn1 := (newNode (allocSet st S).1 sc node_idx ty shape (some (allocSet st S).2)
    (.int 0)).1 with hnn1
  have hnn1objs : nn1.objs = st.objs ++ [prim] := by
    show st.objs ++ [⟨sc, node_idx, ty, .int 0, 10, [shape],
      st.heap.length, (st.heap ++ [S]).length⟩] = st.objs ++ [prim]
    have hlen1 : (st.heap ++ [S]).length = st.heap.length + 1 := by simp
    rw [hlen1]
  have hnn1nodes : nn1.nodes = st.nodes := rfl
  have hnn1heap : nn1.heap = st.heap ++ [S] ++ [[]] := rfl
  have hgetprim : getNode nn1 st.objs.length = prim := by
    show nn1.objs.getD st.objs.length default = prim
    rw [hnn1objs, list_getD_append, if_pos rfl]
  have hgetold : ∀ a, a < st.objs.length → getNode nn1 a = getNode st a := by
    intro a ha
    show nn1.objs.getD a default = _
    rw [hnn1objs, List.getD_append _ _ _ _ ha]
    rfl
  have hgetset : ∀ r, getSet nn1 r =
      if r = st.heap.length + 1 then []
      else if r = st.heap.length then S else getSet st r := by
    intro r
    show nn1.heap.getD r [] = _
    rw [hnn1heap, list_getD_append]
    simp only [List.length_append, List.length_singleton]
    by_cases h1 : r = st.heap.length + 1
    · rw [if_pos h1, if_pos h1]
    · rw [if_neg h1, if_neg h1, list_getD_append]
      by_cases h2 : r = st.heap.length
      · rw [if_pos h2, if_pos h2]
      · rw [if_neg h2, if_neg h2]
        rfl
  have hwout : ∀ y ∈ S, (getNode nn1 y).out_nodes < st.heap.length := by
    intro y hy
    rw [hgetold y (hSlt y hy)]
    exact hrefs y hy
  have hB1 : (opEntry st S sc node_idx ty shape).1 =
      pushNodeId (S.foldl (fun s x => add_out_node s x (.node st.objs.length)) nn1)
        st.objs.length := rfl
  refine ⟨rfl, ?_, ?_, ?_, ?_, ?_, ?_, ?_, ?_, ?_, ?_, ?_, ?_, ?_⟩
  · rw [hB1]
    show (S.foldl _ nn1).objs.length = _
    rw [wiring_objs, hnn1objs]
    simp
  · rw [hB1]
    show (S.foldl _ nn1).nodes ++ [st.objs.length] = _
    rw [wiring_nodes, hnn1nodes]
  · rw [hB1]
    show (S.foldl _ nn1).heap.length = _
    rw [wiring_heap_length, hnn1heap]
    simp
  · rw [hB1]
    show getNode (S.foldl _ nn1) st.objs.length = _
    rw [wiring_getNode]
    exact hgetprim
  · intro a ha
    rw [hB1]
    show getNode (S.foldl _ nn1) a = _
    rw [wiring_getNode]
    exact hgetold a ha
  · rw [hB1]
    show getSet (S.foldl _ nn1) st.heap.length = S
    rw [wiring_getSet_frame _ _ _ _ (fun x hx => by
      have := hwout x hx
      omega)]
    rw [hgetset, if_neg (by omega), if_pos rfl]
  · rw [hB1]
    show getSet (S.foldl _ nn1) (st.heap.length + 1) = []
    rw [wiring_getSet_frame _ _ _ _ (fun x hx => by
      have := hwout x hx
      omega)]
    rw [hgetset, if_pos rfl]
  · intro r hr y
    rw [hB1]
    show y ∈ getSet (S.foldl _ nn1) r ↔ _
    rw [wiring_getSet_mem]
    have hsetr : getSet nn1 r = getSet st r := by
      rw [hgetset, if_neg (by omega), if_neg (by omega)]
    rw [hsetr]
    constructor
    · rintro (h | ⟨rfl, x, hx, hout, hlt⟩)
      · exact Or.inl h
      · rw [hgetold x (hSlt x hx)] at hout
        exact Or.inr ⟨rfl, x, hx, hout⟩
    · rintro (h | ⟨rfl, x, hx, hout⟩)
      · exact Or.inl h
      · refine Or.inr ⟨rfl, x, hx, ?_, ?_⟩
        · rw [hgetold x (hSlt x hx)]
          exact hout
        · rw [hnn1heap]
          simp only [List.length_append, List.length_singleton]
          omega
  · intro r hr hnr
    rw [hB1]
    show getSet (S.foldl _ nn1) r = _
    rw [wiring_getSet_frame _ _ _ _ (fun x hx => by
      rw [hgetold x (hSlt x hx)]
      exact hnr x hx)]
    rw [hgetset, if_neg (by omega), if_neg (by omega)]
  · rw [hB1]
    show (S.foldl _ nn1).profiled_layers = _
    exact (wiring_fields S st.objs.length nn1).1
  · rw [hB1]
    show (S.foldl _ nn1).num_inputs = _
    exact (wiring_fields S st.objs.length nn1).2.1
  · rw [hB1]
    show (S.foldl _ nn1).buffer_param_names = _
    exact (wiring_fields S st.objs.length nn1).2.2.1
  · rw [hB1]
    show (S.foldl _ nn1).num_inputs_buffs_params = _
    exact (wiring_fields S st.objs.length nn1).2.2.2

theorem opPipeline_ok (st : GState) (S : SetObj) (sc : String) (ty : NodeTypes)
    (shape : List ℤ) (nodeIdx k : Nat)
    (hSlt : ∀ y ∈ S, y < st.objs.length)
    (hSrefs : ∀ y ∈ S, (getNode st y).out_nodes < st.heap.length)
    (hnodeIdx : nodeIdx = st.nodes.length)
    (hk : 1 ≤ k) :
    ∃ stF, ((List.range k).foldlM
        (fun s i => if i ≠ 0 then
            secondarySlot (opEntry st S sc nodeIdx ty shape).2 nodeIdx s i
          else .ok s) (opEntry st S sc nodeIdx ty shape).1) = .ok stF ∧
      OpEffect st k S ⟨sc, nodeIdx, ty, .int 0, 10, [shape],
        st.heap.length, st.heap.length + 1⟩ stF := by
  obtain ⟨hE1, hE2, hE3, hE4, hE5, hE6, hE7, hE8, hE9, hE10, hE11, hE12, hE13, hE14⟩ :=
    opEntry_spec st S sc nodeIdx ty shape hSlt hSrefs
  set prim : Node := ⟨sc, nodeIdx, ty, .int 0, 10, [shape],
    st.heap.length, st.heap.length + 1⟩ with hprimdef
  set B := (opEntry st S sc nodeIdx ty shape).1 with hBdef
  have hsl := slotLoop_ok B st.objs.length nodeIdx prim S
    (by rw [hE2])
    (by rw [hE5])
    (by show st.heap.length < B.heap.length; omega)
    (by show st.heap.length + 1 < B.heap.length; omega)
    (by show st.heap.length ≠ st.heap.length + 1; omega)
    (by show getSet B st.heap.length = S; exact hE7)
    (by show getSet B (st.heap.length + 1) = []; exact hE8)
    hSlt
    (by rw [hE3, List.length_append, List.length_singleton, hnodeIdx])
    (by rw [hE3, hnodeIdx]; exact List.getElem?_concat_length st.nodes st.objs.length)
    (k - 1)
  rcases hsl with ⟨stF, hfold, inv⟩
  have hrange : List.range k = 0 :: List.range' 1 (k - 1) := by
    rw [List.range_eq_range']
    cases k with
    | zero => omega
    | succ k2 =>
      rw [List.range'_succ]
      simp
  refine ⟨stF, ?_, ?_⟩
  · rw [hrange, List.foldlM_cons, if_neg (by simp), except_bind_ok]
    rw [hE1]
    exact hfold
  · refine {
      nodes_eq := ?_
      objs_len := ?_
      heap_len := ?_
      old_node := ?_
      prim_node := ?_
      sec_node := ?_
      shared_in := ?_
      prim_out := ?_
      sec_out := ?_
      old_set_mem := ?_
      old_set_frame := ?_
      fields_eq := ?_ }
    · rw [inv.nodes_eq, hE3, List.append_assoc, hrange]
      simp only [List.map_cons, Nat.add_zero, List.cons_append, List.nil_append,
        List.singleton_append]
    · rw [inv.objs_len, hE2]
      omega
    · rw [inv.heap_len, hE4]
      omega
    · intro a ha
      rw [inv.old_node a (by omega), hE6 a ha]
    · rw [inv.old_node st.objs.length (by omega), hE5]
    · intro i h1 h2
      have := inv.sec_node i h1 h2
      rw [hE4] at this
      rw [this]
      have he : st.heap.length + 2 + i - 1 = st.heap.length + 1 + i := by omega
      rw [he]
    · exact inv.shared_in
    · exact inv.prim_out
    · intro i h1 h2
      have := inv.sec_out i h1 h2
      rw [hE4] at this
      have he : st.heap.length + 2 + i - 1 = st.heap.length + 1 + i := by omega
      rw [he] at this
      exact this
    · intro r hr y
      have hfr : getSet stF r = getSet B r :=
        inv.heap_frame r (by omega)
          (show r ≠ st.heap.length by omega)
          (show r ≠ st.heap.length + 1 by omega)
      rw [hfr]
      exact hE9 r hr y
    · intro r hr hnr
      have hfr : getSet stF r = getSet B r :=
        inv.heap_frame r (by omega)
          (show r ≠ st.heap.length by omega)
          (show r ≠ st.heap.length + 1 by omega)
      rw [hfr]
      exact hE10 r hr hnr
    · rcases inv.fields_eq with ⟨f1, f2, f3, f4⟩
      exact ⟨f1.trans hE11, f2.trans hE12, f3.trans hE13, f4.trans hE14⟩

theorem processOp_ok (st : GState) (idx num_extra : Nat) (op : TraceOp)
    (hvalid : ∀ i ∈ op.inputs, i < st.nodes.length)
    (hids : IdsValid st)
    (hrefs : RefsValid st)
    (hnode_idx : st.num_inputs_buffs_params + idx + num_extra = st.nodes.length)
    (hk : 1 ≤ op.num_outputs) :
    ∃ S stF,
      resolveInputs st op.inputs = .ok S ∧
      (∀ x, x ∈ S ↔ ∃ i ∈ op.inputs, st.nodes[i]? = some x) ∧
      processOp st idx num_extra op = .ok (stF, num_extra + (op.num_outputs - 1)) ∧
      OpEffect st op.num_outputs S (opPrimary st idx op) stF := by
  rcases resolveInputs_ok st op.inputs hvalid with ⟨S, hres, hmem⟩
  have hSnodes : ∀ y ∈ S, y ∈ st.nodes := by
    intro y hy
    rcases (hmem y).mp hy with ⟨i, _, hix⟩
    rcases List.getElem?_eq_some_iff.mp hix with ⟨hlt, heq⟩
    exact heq ▸ List.getElem_mem hlt
  have hSlt : ∀ y ∈ S, y < st.objs.length := fun y hy => hids y (hSnodes y hy)
  have hSrefs : ∀ y ∈ S, (getNode st y).out_nodes < st.heap.length := by
    intro y hy
    have hy2 := hSlt y hy
    have h1 : getNode st y ∈ st.objs := by
      show st.objs.getD y default ∈ st.objs
      rw [List.getD_eq_getElem _ _ hy2]
      exact List.getElem_mem hy2
    exact (hrefs _ h1).2
  set nodeIdx := st.num_inputs_buffs_params + idx + num_extra with hni
  set shape := (match op.floatShape with | some dims => dims | none => [1]) with hsh
  have hbody : processOp st idx num_extra op =
      ((List.range op.num_outputs).foldlM
        (fun s i => if i ≠ 0 then secondarySlot
            (if _find_encasing_layer st.profiled_layers op.scopeName ≠ "" then
              opEntry st S (_find_encasing_layer st.profiled_layers op.scopeName)
                nodeIdx .LAYER shape
            else opEntry st S (raw_op_scope op idx) nodeIdx .OP shape).2 nodeIdx s i
          else .ok s)
        (if _find_encasing_layer st.profiled_layers op.scopeName ≠ "" then
            opEntry st S (_find_encasing_layer st.profiled_layers op.scopeName)
              nodeIdx .LAYER shape
          else opEntry st S (raw_op_scope op idx) nodeIdx .OP shape).1)
        >>= fun st4 => .ok (st4, num_extra + (op.num_outputs - 1)) := by
    unfold processOp
    rw [hres]
    rfl
  by_cases hns : _find_encasing_layer st.profiled_layers op.scopeName ≠ ""
  · rcases opPipeline_ok st S (_find_encasing_layer st.profiled_layers op.scopeName)
      .LAYER shape nodeIdx op.num_outputs hSlt hSrefs hnode_idx hk with ⟨stF, hfold, heff⟩
    rw [if_pos hns, hfold] at hbody
    refine ⟨S, stF, hres, hmem, hbody.trans rfl, ?_⟩
    have hp : opPrimary st idx op =
        (⟨_find_encasing_layer st.profiled_layers op.scopeName, nodeIdx, .LAYER, .int 0,
          10, [shape], st.heap.length, st.heap.length + 1⟩ : Node) := by
      unfold opPrimary
      rw [if_pos hns, if_pos hns, ← hnode_idx]
    rw [hp]
    exact heff
  · rcases opPipeline_ok st S (raw_op_scope op idx)
      .OP shape nodeIdx op.num_outputs hSlt hSrefs hnode_idx hk with ⟨stF, hfold, heff⟩
    rw [if_neg hns, hfold] at hbody
    refine ⟨S, stF, hres, hmem, hbody.trans rfl, ?_⟩
    have hp : opPrimary st idx op =
        (⟨raw_op_scope op idx, nodeIdx, .OP, .int 0,
          10, [shape], st.heap.length, st.heap.length + 1⟩ : Node) := by
      unfold opPrimary
      rw [if_neg hns, if_neg hns, ← hnode_idx]
    rw [hp]
    exact heff

theorem find_fold_cases (layers : List String) (sn : String) (acc : String) :
    layers.foldl (fun most layer_scope =>
      if pyStartsWith sn layer_scope && most.length < layer_scope.length
      then layer_scope else most) acc = acc ∨
    (layers.foldl (fun most layer_scope =>
      if pyStartsWith sn layer_scope && most.length < layer_scope.length
      then layer_scope else most) acc ∈ layers ∧
      pyStartsWith sn (layers.foldl (fun most layer_scope =>
        if pyStartsWith sn layer_scope && most.length < layer_scope.length
        then layer_scope else most) acc)) := by
  induction layers generalizing acc with
  | nil => exact Or.inl rfl
  | cons l t ih =>
    rw [List.foldl_cons]
    by_cases hc : pyStartsWith sn l && acc.length < l.length
    · rw [if_pos hc]
      rcases ih l with h | h
      · refine Or.inr ?_
        rw [h]
        have := (Bool.and_eq_true _ _).mp hc
        exact ⟨List.mem_cons_self l t, this.1⟩
      · exact Or.inr ⟨List.mem_cons_of_mem l h.1, h.2⟩
    · rw [if_neg hc]
      rcases ih acc with h | h
      · exact Or.inl h
      · exact Or.inr ⟨List.mem_cons_of_mem l h.1, h.2⟩

theorem find_fold_le (layers : List String) (sn : String) (acc : String) :
    acc.length ≤ (layers.foldl (fun most layer_scope =>
      if pyStartsWith sn layer_scope && most.length < layer_scope.length
      then layer_scope else most) acc).length := by
  induction layers generalizing acc with
  | nil => exact Nat.le_refl _
  | cons l t ih =>
    rw [List.foldl_cons]
    by_cases hc : pyStartsWith sn l && acc.length < l.length
    · rw [if_pos hc]
      have := (Bool.and_eq_true _ _).mp hc
      have h2 := of_decide_eq_true this.2
      exact Nat.le_trans (Nat.le_of_lt h2) (ih l)
    · rw [if_neg hc]
      exact ih acc

theorem find_fold_max (layers : List String) (sn : String) (acc : String) :
    ∀ l ∈ layers, pyStartsWith sn l →
      l.length ≤ (layers.foldl (fun most layer_scope =>
        if pyStartsWith sn layer_scope && most.length < layer_scope.length
        then layer_scope else most) acc).length := by
  induction layers generalizing acc with
  | nil => intro l hl; simp at hl
  | cons x t ih =>
    intro l hl hpre
    rw [List.foldl_cons]
    rcases List.mem_cons.mp hl with rfl | hlt
    · by_cases hc : pyStartsWith sn l && acc.length < l.length
      · rw [if_pos hc]
        exact find_fold_le t sn l
      · rw [if_neg hc]
        have : ¬ acc.length < l.length := by
          intro hlen
          exact hc ((Bool.and_eq_true _ _).mpr ⟨hpre, decide_eq_true hlen⟩)
        exact Nat.le_trans (Nat.le_of_not_lt this) (find_fold_le t sn acc)
    · by_cases hc : pyStartsWith sn x && acc.length < x.length
      · rw [if_pos hc]
        exact ih x l hlt hpre
      · rw [if_neg hc]
        exact ih acc l hlt hpre

/-- Decimal value of a digit character. -/
def decDigitVal (c : Char) : Nat := c.toNat - 48

/-- Decimal value of a digit string. -/
def decVal (l : List Char) : Nat := l.foldl (fun acc c => acc * 10 + decDigitVal c) 0

theorem decVal_aux (l : List Char) (a : Nat) :
    l.foldl (fun acc c => acc * 10 + decDigitVal c) a =
      a * 10 ^ l.length + l.foldl (fun acc c => acc * 10 + decDigitVal c) 0 := by
  induction l generalizing a with
  | nil => simp
  | cons c t ih =>
    rw [List.foldl_cons, List.foldl_cons, ih, ih (0 * 10 + decDigitVal c)]
    simp only [List.length_cons, Nat.pow_succ, Nat.zero_mul, Nat.zero_add]
    ring

theorem decVal_append_one (l : List Char) (c : Char) :
    decVal (l ++ [c]) = decVal l * 10 + decDigitVal c := by
  unfold decVal
  rw [List.foldl_append, List.foldl_cons, List.foldl_nil]

theorem digitChar_val (d : Nat) (h : d < 10) : decDigitVal (Nat.digitChar d) = d := by
  interval_cases d <;> rfl

theorem toDigitsCore_acc (b fuel n : Nat) (acc : List Char) :
    Nat.toDigitsCore b fuel n acc = Nat.toDigitsCore b fuel n [] ++ acc := by
  induction fuel generalizing n acc with
  | zero => rfl
  | succ f ih =>
    show (if n / b = 0 then _ else _) = (if n / b = 0 then _ else _) ++ acc
    by_cases h : n / b = 0
    · rw [if_pos h, if_pos h]
      rfl
    · rw [if_neg h, if_neg h, ih (n / b) (Nat.digitChar (n % b) :: acc),
        ih (n / b) [Nat.digitChar (n % b)], List.append_assoc]
      rfl

theorem toDigitsCore_val (fuel n : Nat) (h : n < fuel) :
    decVal (Nat.toDigitsCore 10 fuel n []) = n := by
  induction fuel generalizing n with
  | zero => omega
  | succ f ih =>
    show decVal (if n / 10 = 0 then _ else _) = n
    by_cases h0 : n / 10 = 0
    · rw [if_pos h0]
      show decVal [Nat.digitChar (n % 10)] = n
      show 0 * 10 + decDigitVal (Nat.digitChar (n % 10)) = n
      rw [digitChar_val _ (Nat.mod_lt _ (by omega))]
      omega
    · rw [if_neg h0, toDigitsCore_acc, decVal_append_one,
        ih (n / 10) (by omega), digitChar_val _ (Nat.mod_lt _ (by omega))]
      omega

theorem decVal_toDigits (n : Nat) : decVal (Nat.toDigits 10 n) = n :=
  toDigitsCore_val (n + 1) n (by omega)

theorem nat_repr_injective (a b : Nat) (h : Nat.repr a = Nat.repr b) : a = b := by
  have h2 : Nat.toDigits 10 a = Nat.toDigits 10 b := by
    have h3 := congrArg String.data h
    exact h3
  have h4 := congrArg decVal h2
  rwa [decVal_toDigits, decVal_toDigits] at h4

theorem toString_nat_eq (n : Nat) : toString n = Nat.repr n := rfl

theorem raw_op_scope_inj (op op2 : TraceOp) (i j : Nat)
    (hs : op.scopeName = op2.scopeName) (hk : op.kind = op2.kind)
    (h : raw_op_scope op i = raw_op_scope op2 j) : i = j := by
  unfold raw_op_scope at h
  rw [← hs, ← hk] at h
  have hd := congrArg String.data h
  simp only [String.data_append, List.append_assoc] at hd
  have h1 := List.append_cancel_left hd
  have h2 := List.append_cancel_left h1
  have h3 := List.append_cancel_left h2
  rw [toString_nat_eq, toString_nat_eq] at h3
  exact nat_repr_injective i j (congrArg String.mk h3)

/-- C8 counterexample: synthesized raw-op scopes are not globally unique.
In the graph built from `atanOps`, the raw-op nodes at positions 1 and 21 are
distinct OP nodes with the same synthesized scope "/aten::atan21", because
`scopeName + "/" + kind + str(idx)` has no separator before the index. -/
theorem raw_op_scope_not_unique :
    raw_op_scope ⟨"", "aten::atan2", [], 1, none⟩ 1
      = raw_op_scope ⟨"", "aten::atan", [], 1, none⟩ 21 ∧
    (getNode atanState 1).type = .OP ∧
    (getNode atanState 21).type = .OP ∧
    (getNode atanState 1).scope = (getNode atanState 21).scope ∧
    atanState.nodes[1]? = some 1 ∧ atanState.nodes[21]? = some 21 := by
  refine ⟨by decide, ?_, ?_, ?_, by decide, by decide⟩ <;> decide

/-- C8 amended: (1) the encasing-layer resolution returns the longest
declared profiled-layer scope that is a prefix of the op's raw scope name
(or the empty string when none is); (2) when no declared scope is a prefix,
the created node is tagged OP with the synthesized scope
`raw scope + "/" + op kind + decimal index`; (3) that synthesized scope is
injective in the trace index for a fixed raw scope and op kind — but not
globally unique across kinds (see the counterexample). -/
theorem encasing_and_raw_scope_spec :
    (∀ (layers : List String) (sn : String),
      (_find_encasing_layer layers sn = "" ∨
        (_find_encasing_layer layers sn ∈ layers ∧
          pyStartsWith sn (_find_encasing_layer layers sn) = true)) ∧
      (∀ l ∈ layers, pyStartsWith sn l = true →
        l.length ≤ (_find_encasing_layer layers sn).length)) ∧
    (∀ (st : GState) (idx num_extra : Nat) (op : TraceOp),
      (∀ i ∈ op.inputs, i < st.nodes.length) → IdsValid st → RefsValid st →
      st.num_inputs_buffs_params + idx + num_extra = st.nodes.length →
      1 ≤ op.num_outputs →
      (∀ l ∈ st.profiled_layers, ¬ pyStartsWith op.scopeName l = true) →
      ∃ stF, processOp st idx num_extra op
          = .ok (stF, num_extra + (op.num_outputs - 1)) ∧
        (getNode stF st.objs.length).type = .OP ∧
        (getNode stF st.objs.length).scope = raw_op_scope op idx) ∧
    (∀ (op op2 : TraceOp) (i j : Nat), op.scopeName = op2.scopeName →
      op.kind = op2.kind → raw_op_scope op i = raw_op_scope op2 j → i = j) := by
  refine ⟨?_, ?_, raw_op_scope_inj⟩
  · intro layers sn
    constructor
    · rcases find_fold_cases layers sn "" with h | h
      · exact Or.inl h
      · exact Or.inr h
    · intro l hl hpre
      exact find_fold_max layers sn "" l hl hpre
  · intro st idx num_extra op hvalid hids hrefs hnode_idx hk hraw
    have hfind : _find_encasing_layer st.profiled_layers op.scopeName = "" := by
      rcases find_fold_cases st.profiled_layers op.scopeName "" with h | h
      · exact h
      · exact absurd h.2 (hraw _ h.1)
    rcases processOp_ok st idx num_extra op hvalid hids hrefs hnode_idx hk with
      ⟨S, stF, _, _, hok, heff⟩
    refine ⟨stF, hok, ?_, ?_⟩
    · rw [heff.prim_node]
      unfold opPrimary
      rw [hfind]
      simp
    · rw [heff.prim_node]
      unfold opPrimary
      rw [hfind]
      simp

/-- C8 witness: the resolution, tagging and injectivity at concrete inputs:
the layer scope "Net/fc" is resolved as the longest prefix of
"Net/fc/aten::addmm", an op over the one-input state with no matching layer
gets tag OP and scope "/aten::relu0", and the injectivity applies at indices
3 and 3. -/
theorem encasing_and_raw_scope_spec_witness :
    (pyStartsWith "Net/fc/aten::addmm" (_find_encasing_layer ["Net", "Net/fc"]
        "Net/fc/aten::addmm") = true) ∧
    (∃ stF, processOp inputOnlyState 0 0 ⟨"", "aten::relu", [0], 1, none⟩
        = .ok (stF, 0) ∧
      (getNode stF inputOnlyState.objs.length).type = .OP ∧
      (getNode stF inputOnlyState.objs.length).scope
        = raw_op_scope ⟨"", "aten::relu", [0], 1, none⟩ 0) := by
  constructor
  · rcases (encasing_and_raw_scope_spec.1 ["Net", "Net/fc"] "Net/fc/aten::addmm").1 with h | h
    · rw [h]
      decide
    · exact h.2
  · exact encasing_and_raw_scope_spec.2.1 inputOnlyState 0 0 ⟨"", "aten::relu", [0], 1, none⟩
      (by decide) (by decide) (by decide) (by decide) (by decide) (by decide)

/-- C1 counterexample: in the graph built from one input and one 3-output op
(node ids: input 0, primary 1, secondaries 2 and 3), the shallow copy shares
the in-edge set: secondary 3's in-set is the very set object of primary 1 and
holds [0, 1, 2] — the op input 0 and the previous chain node 2 besides the
primary — not "exactly one in-edge back to the primary"; and the primary has
a forward edge only to secondary 2, not to each secondary (3 is missing). -/
theorem secondary_nodes_not_single_in_edge :
    multiOutState.nodes = [0, 1, 2, 3] ∧
    (getNode multiOutState 3).in_nodes = (getNode multiOutState 1).in_nodes ∧
    getSet multiOutState (getNode multiOutState 3).in_nodes = [0, 1, 2] ∧
    ¬ getSet multiOutState (getNode multiOutState 3).in_nodes = [1] ∧
    (3 : Nat) ∉ getSet multiOutState (getNode multiOutState 1).out_nodes := by
  refine ⟨?_, ?_, ?_, by decide, by decide⟩ <;> rfl

/-- C1 amended: for every trace op with k > 1 output slots (well-formed
state, in-range producer indices), construction creates exactly k-1
secondary bookkeeping nodes after the primary, each sharing the primary's
scope, type, weight and shape with index offset by its slot position.  Each
secondary's out-edge set is a fresh empty set at creation; due to the
shallow copy all secondaries share the primary's in-edge set object, which
finally holds the op's inputs plus the primary and the first k-2
secondaries: secondary i's added in-edge goes to the node of the previous
slot (the primary only for i = 1), and it is that previous node — not the
primary for i > 1 — that gains the forward edge, so the primary's out-set
holds exactly the first secondary and each non-final secondary's out-set
exactly the next one. -/
theorem multi_output_secondary_nodes (st : GState) (idx num_extra : Nat) (op : TraceOp)
    (hvalid : ∀ i ∈ op.inputs, i < st.nodes.length)
    (hids : IdsValid st)
    (hrefs : RefsValid st)
    (hnode_idx : st.num_inputs_buffs_params + idx + num_extra = st.nodes.length)
    (hk2 : 2 ≤ op.num_outputs) :
    ∃ S stF,
      resolveInputs st op.inputs = .ok S ∧
      processOp st idx num_extra op = .ok (stF, num_extra + (op.num_outputs - 1)) ∧
      stF.nodes = st.nodes ++
        (List.range op.num_outputs).map (fun i => st.objs.length + i) ∧
      stF.objs.length = st.objs.length + op.num_outputs ∧
      getNode stF st.objs.length = opPrimary st idx op ∧
      (∀ i, 1 ≤ i → i ≤ op.num_outputs - 1 →
        getNode stF (st.objs.length + i) = { opPrimary st idx op with idx := (opPrimary st idx op).idx + i, out_nodes := st.heap.length + 1 + i }) ∧
      (∀ i, 1 ≤ i → i ≤ op.num_outputs - 1 →
        (getNode stF (st.objs.length + i)).in_nodes
          = (getNode stF st.objs.length).in_nodes) ∧
      getSet stF (getNode stF st.objs.length).in_nodes =
        S ++ (List.range (op.num_outputs - 1)).map (fun i => st.objs.length + i) ∧
      getSet stF (getNode stF st.objs.length).out_nodes = [st.objs.length + 1] ∧
      (∀ i, 1 ≤ i → i ≤ op.num_outputs - 1 →
        getSet stF (getNode stF (st.objs.length + i)).out_nodes =
          if i = op.num_outputs - 1 then [] else [st.objs.length + i + 1]) := by
  rcases processOp_ok st idx num_extra op hvalid hids hrefs hnode_idx (by omega) with
    ⟨S, stF, hres, hmem, hok, heff⟩
  refine ⟨S, stF, hres, hok, heff.nodes_eq, heff.objs_len, heff.prim_node, heff.sec_node,
    ?_, ?_, ?_, ?_⟩
  · intro i h1 h2
    rw [heff.sec_node i h1 h2, heff.prim_node]
  · rw [heff.prim_node]
    show getSet stF (opPrimary st idx op).in_nodes = _
    have h : (opPrimary st idx op).in_nodes = st.heap.length := rfl
    rw [h]
    exact heff.shared_in
  · rw [heff.prim_node]
    show getSet stF (opPrimary st idx op).out_nodes = _
    have h : (opPrimary st idx op).out_nodes = st.heap.length + 1 := rfl
    rw [h]
    have h2 := heff.prim_out
    rw [if_neg (by omega)] at h2
    exact h2
  · intro i h1 h2
    rw [heff.sec_node i h1 h2]
    show getSet stF (st.heap.length + 1 + i) = _
    exact heff.sec_out i h1 h2

/-- C1 witness: the amended characterization at the one-input state and a
2-output op: one secondary node 2 is created, shares node 1's in-set
object, the primary's out-set is [2] and the secondary's is empty. -/
theorem multi_output_secondary_nodes_witness :
    ∃ S stF,
      resolveInputs inputOnlyState [0] = .ok S ∧
      processOp inputOnlyState 0 0 ⟨"", "aten::mul", [0], 2, none⟩ = .ok (stF, 1) ∧
      stF.objs.length = 3 ∧
      (getNode stF 2).in_nodes = (getNode stF 1).in_nodes ∧
      getSet stF (getNode stF 1).in_nodes = S ++ [1] ∧
      getSet stF (getNode stF 1).out_nodes = [2] ∧
      getSet stF (getNode stF 2).out_nodes = [] := by
  rcases multi_output_secondary_nodes inputOnlyState 0 0 ⟨"", "aten::mul", [0], 2, none⟩
    (by decide) (by decide) (by decide) (by decide) (by decide) with
    ⟨S, stF, h1, h2, h3, h4, h5, h6, h7, h8, h9, h10⟩
  refine ⟨S, stF, h1, h2, ?_, ?_, ?_, ?_, ?_⟩
  · rw [h4]
    rfl
  · exact h7 1 (le_refl 1) (by decide)
  · exact h8
  · exact h9
  · have h := h10 1 (le_refl 1) (by decide)
    simpa using h

/-- C3 counterexample: a trace op referencing the unknown producer index 5
makes construction fail with the built-in IndexError of Python list
indexing, not with a dedicated DanglingReferenceError class — no class of
that name (nor ShapeResolutionError) exists anywhere in the source. -/
theorem dangling_reference_raises_index_error :
    Graph_init [] 1 [] ⟨[⟨some [2]⟩], [⟨"", "k", [5], 1, none⟩], []⟩ []
      = .error .indexError ∧
    BuildExn.indexError ≠ BuildExn.danglingReferenceError ∧
    BuildExn.indexError ≠ BuildExn.shapeResolutionError := by
  refine ⟨by rfl, by decide, by decide⟩

/-- C3 amended: construction fails on the claimed conditions, but with the
errors the Python code actually raises rather than with dedicated
ShapeResolutionError and DanglingReferenceError classes: (1) an op
referencing a producer index for which no node was created fails with the
built-in IndexError of list indexing; (2) a trace input with missing
declared shape makes the `_add_IO_nodes` loop fail (with the error of the
external sizes accessor when it is the first failure encountered); (3) and
(4): the construction path contains no exception handler, so an error of
either phase is returned unchanged to the caller. -/
theorem construction_error_spec :
    (∀ (st : GState) (idx num_extra : Nat) (op : TraceOp),
      (∃ i ∈ op.inputs, st.nodes.length ≤ i) →
      processOp st idx num_extra op = .error .indexError) ∧
    (∀ (st : GState) (inputs : List TraceInput),
      (∃ inp ∈ inputs, inp.sizes = none) →
      ∃ e, _add_IO_nodes st inputs = .error e) ∧
    (∀ (pl : List String) (ni : Nat) (bpn : List String) (tg : TraceGraph)
        (w : List (String × PyWeight)) (e : BuildExn),
      _add_IO_nodes ⟨[], [], [], pl, ni, bpn, 0⟩ tg.inputs = .error e →
      Graph_init pl ni bpn tg w = .error e) ∧
    (∀ (pl : List String) (ni : Nat) (bpn : List String) (tg : TraceGraph)
        (w : List (String × PyWeight)) (s1 : GState) (e : BuildExn),
      _add_IO_nodes ⟨[], [], [], pl, ni, bpn, 0⟩ tg.inputs = .ok s1 →
      _add_OP_nodes s1 tg.ops = .error e →
      Graph_init pl ni bpn tg w = .error e) := by
  refine ⟨?_, ?_, ?_, ?_⟩
  · intro st idx num_extra op h
    unfold processOp
    rw [resolveInputs_error st op.inputs h]
    rfl
  · intro st inputs h
    have hgen : ∀ (l : List TraceInput), (∃ j ∈ l, j.sizes = none) →
        ∀ (n : Nat) (st3 : GState),
        ∃ e, List.foldlM (fun s p => addIONode s p.1 p.2) st3 (List.enumFrom n l)
          = .error e := by
      intro l
      induction l with
      | nil =>
        intro hl
        rcases hl with ⟨j, hj, _⟩
        cases hj
      | cons y t2 ih2 =>
        intro hl n st3
        rw [List.enumFrom_cons, List.foldlM_cons]
        cases hy : addIONode st3 n y with
        | error e => exact ⟨e, rfl⟩
        | ok s4 =>
          rcases hl with ⟨j, hj, hjnone⟩
          rcases List.mem_cons.mp hj with rfl | hmt2
          · rw [addIONode, hjnone] at hy
            cases hy
          · rcases ih2 ⟨j, hmt2, hjnone⟩ (n + 1) s4 with ⟨e, he⟩
            exact ⟨e, he⟩
    show ∃ e, List.foldlM (fun s p => addIONode s p.1 p.2) st inputs.enum = .error e
    have henum : inputs.enum = List.enumFrom 0 inputs := rfl
    rw [henum]
    exact hgen inputs h 0 st
  · intro pl ni bpn tg w e h
    show (_build_graph ⟨[], [], [], pl, ni, bpn, 0⟩ tg >>=
      fun st1 => Except.ok (apply_weight_overrides st1 w)) = .error e
    show ((_add_IO_nodes ⟨[], [], [], pl, ni, bpn, 0⟩ tg.inputs >>= fun st1 =>
      _add_OP_nodes st1 tg.ops >>= fun st2 =>
        Except.ok (_normalize_indices
          (_remove_nodes_that_go_nowhere (_remove_constant_nodes st2) tg.outputs))) >>=
      fun st1 => Except.ok (apply_weight_overrides st1 w)) = .error e
    rw [h]
    rfl
  · intro pl ni bpn tg w s1 e h1 h2
    show (_build_graph ⟨[], [], [], pl, ni, bpn, 0⟩ tg >>=
      fun st1 => Except.ok (apply_weight_overrides st1 w)) = .error e
    show ((_add_IO_nodes ⟨[], [], [], pl, ni, bpn, 0⟩ tg.inputs >>= fun st1 =>
      _add_OP_nodes st1 tg.ops >>= fun st2 =>
        Except.ok (_normalize_indices
          (_remove_nodes_that_go_nowhere (_remove_constant_nodes st2) tg.outputs))) >>=
      fun st1 => Except.ok (apply_weight_overrides st1 w)) = .error e
    rw [h1, except_bind_ok, h2]
    rfl

/-- C3 witness: the amended error behaviour at concrete inputs: an op
referencing index 5 on the one-node state, a shapeless first input, and
propagation of both phase errors through Graph_init. -/
theorem construction_error_spec_witness :
    processOp inputOnlyState 0 0 ⟨"", "k", [5], 1, none⟩ = .error .indexError ∧
    (∃ e, _add_IO_nodes inputOnlyState [⟨none⟩] = .error e) ∧
    Graph_init [] 1 [] ⟨[⟨none⟩], [], []⟩ [] = .error .sizesError ∧
    Graph_init [] 1 [] ⟨[⟨some [2]⟩], [⟨"", "k", [5], 1, none⟩], []⟩ []
      = .error .indexError := by
  refine ⟨?_, ?_, ?_, ?_⟩
  · exact construction_error_spec.1 inputOnlyState 0 0 ⟨"", "k", [5], 1, none⟩
      (by decide)
  · exact construction_error_spec.2.1 inputOnlyState [⟨none⟩] ⟨⟨none⟩, by decide, rfl⟩
  · exact construction_error_spec.2.2.1 [] 1 [] ⟨[⟨none⟩], [], []⟩ [] .sizesError rfl
  · exact construction_error_spec.2.2.2 [] 1 [] ⟨[⟨some [2]⟩], [⟨"", "k", [5], 1, none⟩], []⟩
      [] _ .indexError rfl rfl

theorem setSet_heap_length (st : GState) (r : Nat) (v : SetObj) :
    (setSet st r v).heap.length = st.heap.length := by
  simp [setSet]

theorem getNode_eq_of_objs {s s' : GState} (h : s'.objs = s.objs) (a : Nat) :
    getNode s' a = getNode s a := by
  unfold getNode
  rw [h]

theorem spliceOutBody_eq (nid : Nat) (s : GState) (i : Nat) :
    spliceOutBody nid s i =
      setSet (setSet s ((getNode s i).out_nodes)
          (setDiscard (getSet s ((getNode s i).out_nodes)) nid))
        ((getNode s i).out_nodes)
        (setUnionUpd
          (getSet (setSet s ((getNode s i).out_nodes)
              (setDiscard (getSet s ((getNode s i).out_nodes)) nid))
            ((getNode s i).out_nodes))
          (getSet (setSet s ((getNode s i).out_nodes)
              (setDiscard (getSet s ((getNode s i).out_nodes)) nid))
            ((getNode s nid).out_nodes))) := rfl

theorem spliceOutBody_objs (nid : Nat) (s : GState) (i : Nat) :
    (spliceOutBody nid s i).objs = s.objs := rfl

theorem spliceOutBody_nodes (nid : Nat) (s : GState) (i : Nat) :
    (spliceOutBody nid s i).nodes = s.nodes := rfl

theorem spliceOutBody_heap_length (nid : Nat) (s : GState) (i : Nat) :
    (spliceOutBody nid s i).heap.length = s.heap.length := by
  rw [spliceOutBody_eq, setSet_heap_length, setSet_heap_length]

theorem spliceOutBody_getSet (nid : Nat) (s : GState) (i r : Nat)
    (hne : (getNode s nid).out_nodes ≠ (getNode s i).out_nodes) :
    getSet (spliceOutBody nid s i) r =
      if r = (getNode s i).out_nodes ∧ (getNode s i).out_nodes < s.heap.length then
        setUnionUpd (setDiscard (getSet s ((getNode s i).out_nodes)) nid)
          (getSet s ((getNode s nid).out_nodes))
      else getSet s r := by
  rw [spliceOutBody_eq]
  simp only [getSet_setSet, setSet_heap_length]
  have hrn : ¬((getNode s nid).out_nodes = (getNode s i).out_nodes ∧
      (getNode s i).out_nodes < s.heap.length) := fun hc => hne hc.1
  simp only [if_neg hrn]
  by_cases hcond : r = (getNode s i).out_nodes ∧ (getNode s i).out_nodes < s.heap.length
  · have h2 : True ∧ (getNode s i).out_nodes < s.heap.length := ⟨trivial, hcond.2⟩
    simp only [if_pos hcond, if_pos h2]
  · simp only [if_neg hcond]

theorem spliceOutLoop_spec (nid : Nat) (I : List Nat) (s : GState)
    (hro : ∀ i ∈ I, (getNode s i).out_nodes ≠ (getNode s nid).out_nodes)
    (hnd : (I.map (fun i => (getNode s i).out_nodes)).Nodup)
    (hv : ∀ i ∈ I, (getNode s i).out_nodes < s.heap.length) :
    (I.foldl (spliceOutBody nid) s).objs = s.objs ∧
    (I.foldl (spliceOutBody nid) s).nodes = s.nodes ∧
    (I.foldl (spliceOutBody nid) s).heap.length = s.heap.length ∧
    (∀ r, (∀ i ∈ I, r ≠ (getNode s i).out_nodes) →
      getSet (I.foldl (spliceOutBody nid) s) r = getSet s r) ∧
    (∀ i ∈ I, ∀ y, y ∈ getSet (I.foldl (spliceOutBody nid) s) ((getNode s i).out_nodes) ↔
      ((y ∈ getSet s ((getNode s i).out_nodes) ∧ y ≠ nid) ∨
        y ∈ getSet s ((getNode s nid).out_nodes))) := by
  induction I generalizing s with
  | nil =>
    exact ⟨rfl, rfl, rfl, fun r _ => rfl, fun i hi => absurd hi (List.not_mem_nil i)⟩
  | cons i rest ih =>
    have hobjs : (spliceOutBody nid s i).objs = s.objs := rfl
    have hgn : ∀ a, getNode (spliceOutBody nid s i) a = getNode s a :=
      getNode_eq_of_objs hobjs
    have hlen : (spliceOutBody nid s i).heap.length = s.heap.length :=
      spliceOutBody_heap_length nid s i
    have hne_head : (getNode s nid).out_nodes ≠ (getNode s i).out_nodes :=
      fun h => hro i (List.mem_cons_self i rest) h.symm
    rw [List.map_cons, List.nodup_cons] at hnd
    obtain ⟨hhead, hndrest⟩ := hnd
    have hro' : ∀ j ∈ rest,
        (getNode (spliceOutBody nid s i) j).out_nodes ≠
        (getNode (spliceOutBody nid s i) nid).out_nodes := by
      intro j hj
      rw [hgn, hgn]
      exact hro j (List.mem_cons_of_mem i hj)
    have hnd' : (rest.map (fun j => (getNode (spliceOutBody nid s i) j).out_nodes)).Nodup := by
      have hfe : (fun j => (getNode (spliceOutBody nid s i) j).out_nodes)
          = (fun j => (getNode s j).out_nodes) := funext (fun a => by rw [hgn])
      rw [hfe]
      exact hndrest
    have hv' : ∀ j ∈ rest,
        (getNode (spliceOutBody nid s i) j).out_nodes <
        (spliceOutBody nid s i).heap.length := by
      intro j hj
      rw [hgn, hlen]
      exact hv j (List.mem_cons_of_mem i hj)
    obtain ⟨c1, c2, c3, c4, c5⟩ := ih (spliceOutBody nid s i) hro' hnd' hv'
    simp only [hgn] at c4 c5
    have hheadne : ∀ j ∈ rest, (getNode s i).out_nodes ≠ (getNode s j).out_nodes := by
      intro j hj heq
      exact hhead (heq ▸ List.mem_map_of_mem (fun a => (getNode s a).out_nodes) hj)
    refine ⟨?_, ?_, ?_, ?_, ?_⟩
    · rw [List.foldl_cons, c1, hobjs]
    · rw [List.foldl_cons, c2, spliceOutBody_nodes]
    · rw [List.foldl_cons, c3, hlen]
    · intro r hr
      rw [List.foldl_cons, c4 r (fun j hj => hr j (List.mem_cons_of_mem i hj)),
        spliceOutBody_getSet nid s i r hne_head,
        if_neg (fun hc => hr i (List.mem_cons_self i rest) hc.1)]
    · intro j hj y
      rw [List.foldl_cons]
      rcases List.mem_cons.mp hj with rfl | hj2
      · rw [c4 ((getNode s j).out_nodes) hheadne,
          spliceOutBody_getSet nid s j ((getNode s j).out_nodes) hne_head,
          if_pos ⟨rfl, hv j (List.mem_cons_self j rest)⟩,
          mem_setUnionUpd, mem_setDiscard]
      · rw [c5 j hj2 y,
          spliceOutBody_getSet nid s i ((getNode s j).out_nodes) hne_head,
          if_neg (fun hc => hheadne j hj2 hc.1.symm),
          spliceOutBody_getSet nid s i ((getNode s nid).out_nodes) hne_head,
          if_neg (fun hc => hne_head hc.1)]

theorem spliceInBody_eq (nid : Nat) (s : GState) (o : Nat) :
    spliceInBody nid s o =
      setSet (setSet s ((getNode s o).in_nodes)
          (setDiscard (getSet s ((getNode s o).in_nodes)) nid))
        ((getNode s o).in_nodes)
        (setUnionUpd
          (getSet (setSet s ((getNode s o).in_nodes)
              (setDiscard (getSet s ((getNode s o).in_nodes)) nid))
            ((getNode s o).in_nodes))
          (getSet (setSet s ((getNode s o).in_nodes)
              (setDiscard (getSet s ((getNode s o).in_nodes)) nid))
            ((getNode s nid).in_nodes))) := rfl

theorem spliceInBody_objs (nid : Nat) (s : GState) (o : Nat) :
    (spliceInBody nid s o).objs = s.objs := rfl

theorem spliceInBody_nodes (nid : Nat) (s : GState) (o : Nat) :
    (spliceInBody nid s o).nodes = s.nodes := rfl

theorem spliceInBody_heap_length (nid : Nat) (s : GState) (o : Nat) :
    (spliceInBody nid s o).heap.length = s.heap.length := by
  rw [spliceInBody_eq, setSet_heap_length, setSet_heap_length]

theorem spliceInBody_getSet (nid : Nat) (s : GState) (o r : Nat)
    (hne : (getNode s nid).in_nodes ≠ (getNode s o).in_nodes) :
    getSet (spliceInBody nid s o) r =
      if r = (getNode s o).in_nodes ∧ (getNode s o).in_nodes < s.heap.length then
        setUnionUpd (setDiscard (getSet s ((getNode s o).in_nodes)) nid)
          (getSet s ((getNode s nid).in_nodes))
      else getSet s r := by
  rw [spliceInBody_eq]
  simp only [getSet_setSet, setSet_heap_length]
  have hrn : ¬((getNode s nid).in_nodes = (getNode s o).in_nodes ∧
      (getNode s o).in_nodes < s.heap.length) := fun hc => hne hc.1
  simp only [if_neg hrn]
  by_cases hcond : r = (getNode s o).in_nodes ∧ (getNode s o).in_nodes < s.heap.length
  · have h2 : True ∧ (getNode s o).in_nodes < s.heap.length := ⟨trivial, hcond.2⟩
    simp only [if_pos hcond, if_pos h2]
  · simp only [if_neg hcond]

theorem spliceInLoop_spec (nid : Nat) (O : List Nat) (s : GState)
    (hri : ∀ o ∈ O, (getNode s o).in_nodes ≠ (getNode s nid).in_nodes)
    (hnd : (O.map (fun o => (getNode s o).in_nodes)).Nodup)
    (hv : ∀ o ∈ O, (getNode s o).in_nodes < s.heap.length) :
    (O.foldl (spliceInBody nid) s).objs = s.objs ∧
    (O.foldl (spliceInBody nid) s).nodes = s.nodes ∧
    (O.foldl (spliceInBody nid) s).heap.length = s.heap.length ∧
    (∀ r, (∀ o ∈ O, r ≠ (getNode s o).in_nodes) →
      getSet (O.foldl (spliceInBody nid) s) r = getSet s r) ∧
    (∀ o ∈ O, ∀ y, y ∈ getSet (O.foldl (spliceInBody nid) s) ((getNode s o).in_nodes) ↔
      ((y ∈ getSet s ((getNode s o).in_nodes) ∧ y ≠ nid) ∨
        y ∈ getSet s ((getNode s nid).in_nodes))) := by
  induction O generalizing s with
  | nil =>
    exact ⟨rfl, rfl, rfl, fun r _ => rfl, fun o ho => absurd ho (List.not_mem_nil o)⟩
  | cons o rest ih =>
    have hobjs : (spliceInBody nid s o).objs = s.objs := rfl
    have hgn : ∀ a, getNode (spliceInBody nid s o) a = getNode s a :=
      getNode_eq_of_objs hobjs
    have hlen : (spliceInBody nid s o).heap.length = s.heap.length :=
      spliceInBody_heap_length nid s o
    have hne_head : (getNode s nid).in_nodes ≠ (getNode s o).in_nodes :=
      fun h => hri o (List.mem_cons_self o rest) h.symm
    rw [List.map_cons, List.nodup_cons] at hnd
    obtain ⟨hhead, hndrest⟩ := hnd
    have hri' : ∀ j ∈ rest,
        (getNode (spliceInBody nid s o) j).in_nodes ≠
        (getNode (spliceInBody nid s o) nid).in_nodes := by
      intro j hj
      rw [hgn, hgn]
      exact hri j (List.mem_cons_of_mem o hj)
    have hnd' : (rest.map (fun j => (getNode (spliceInBody nid s o) j).in_nodes)).Nodup := by
      have hfe : (fun j => (getNode (spliceInBody nid s o) j).in_nodes)
          = (fun j => (getNode s j).in_nodes) := funext (fun a => by rw [hgn])
      rw [hfe]
      exact hndrest
    have hv' : ∀ j ∈ rest,
        (getNode (spliceInBody nid s o) j).in_nodes <
        (spliceInBody nid s o).heap.length := by
      intro j hj
      rw [hgn, hlen]
      exact hv j (List.mem_cons_of_mem o hj)
    obtain ⟨c1, c2, c3, c4, c5⟩ := ih (spliceInBody nid s o) hri' hnd' hv'
    simp only [hgn] at c4 c5
    have hheadne : ∀ j ∈ rest, (getNode s o).in_nodes ≠ (getNode s j).in_nodes := by
      intro j hj heq
      exact hhead (heq ▸ List.mem_map_of_mem (fun a => (getNode s a).in_nodes) hj)
    refine ⟨?_, ?_, ?_, ?_, ?_⟩
    · rw [List.foldl_cons, c1, hobjs]
    · rw [List.foldl_cons, c2, spliceInBody_nodes]
    · rw [List.foldl_cons, c3, hlen]
    · intro r hr
      rw [List.foldl_cons, c4 r (fun j hj => hr j (List.mem_cons_of_mem o hj)),
        spliceInBody_getSet nid s o r hne_head,
        if_neg (fun hc => hr o (List.mem_cons_self o rest) hc.1)]
    · intro j hj y
      rw [List.foldl_cons]
      rcases List.mem_cons.mp hj with rfl | hj2
      · rw [c4 ((getNode s j).in_nodes) hheadne,
          spliceInBody_getSet nid s j ((getNode s j).in_nodes) hne_head,
          if_pos ⟨rfl, hv j (List.mem_cons_self j rest)⟩,
          mem_setUnionUpd, mem_setDiscard]
      · rw [c5 j hj2 y,
          spliceInBody_getSet nid s o ((getNode s j).in_nodes) hne_head,
          if_neg (fun hc => hheadne j hj2 hc.1.symm),
          spliceInBody_getSet nid s o ((getNode s nid).in_nodes) hne_head,
          if_neg (fun hc => hne_head hc.1)]

theorem spliceNode_spec (s : GState) (nid : Nat)
    (h1 : ∀ i ∈ inSet s nid, (getNode s i).out_nodes ≠ (getNode s nid).out_nodes)
    (h2 : ((inSet s nid).map (fun i => (getNode s i).out_nodes)).Nodup)
    (h3 : ∀ i ∈ inSet s nid, (getNode s i).out_nodes < s.heap.length)
    (h4 : ∀ i ∈ inSet s nid, (getNode s i).out_nodes ≠ (getNode s nid).in_nodes)
    (h5 : ∀ o ∈ outSet s nid, (getNode s o).in_nodes ≠ (getNode s nid).in_nodes)
    (h6 : ((outSet s nid).map (fun o => (getNode s o).in_nodes)).Nodup)
    (h7 : ∀ o ∈ outSet s nid, (getNode s o).in_nodes < s.heap.length)
    (h8 : ∀ i ∈ inSet s nid, ∀ o ∈ outSet s nid,
      (getNode s i).out_nodes ≠ (getNode s o).in_nodes) :
    (spliceNode s nid).objs = s.objs ∧
    (spliceNode s nid).nodes = s.nodes ∧
    (spliceNode s nid).heap.length = s.heap.length ∧
    (∀ i ∈ inSet s nid, ∀ y, y ∈ outSet (spliceNode s nid) i ↔
      ((y ∈ outSet s i ∧ y ≠ nid) ∨ y ∈ outSet s nid)) ∧
    (∀ o ∈ outSet s nid, ∀ y, y ∈ inSet (spliceNode s nid) o ↔
      ((y ∈ inSet s o ∧ y ≠ nid) ∨ y ∈ inSet s nid)) ∧
    (∀ r, (∀ i ∈ inSet s nid, r ≠ (getNode s i).out_nodes) →
      (∀ o ∈ outSet s nid, r ≠ (getNode s o).in_nodes) →
      getSet (spliceNode s nid) r = getSet s r) := by
  obtain ⟨e1, e2, e3, frame1, mem1⟩ := spliceOutLoop_spec nid (inSet s nid) s h1 h2 h3
  have hg1 : ∀ a, getNode ((inSet s nid).foldl (spliceOutBody nid) s) a = getNode s a :=
    getNode_eq_of_objs e1
  have houtList : getSet ((inSet s nid).foldl (spliceOutBody nid) s)
      (getNode ((inSet s nid).foldl (spliceOutBody nid) s) nid).out_nodes
      = outSet s nid := by
    rw [hg1 nid]
    exact frame1 ((getNode s nid).out_nodes) (fun i hi heq => h1 i hi heq.symm)
  have hsplice : spliceNode s nid =
      (outSet s nid).foldl (spliceInBody nid) ((inSet s nid).foldl (spliceOutBody nid) s) := by
    show (getSet ((inSet s nid).foldl (spliceOutBody nid) s)
        (getNode ((inSet s nid).foldl (spliceOutBody nid) s) nid).out_nodes).foldl
        (spliceInBody nid) ((inSet s nid).foldl (spliceOutBody nid) s) = _
    rw [houtList]
  have h5' : ∀ o ∈ outSet s nid,
      (getNode ((inSet s nid).foldl (spliceOutBody nid) s) o).in_nodes ≠
      (getNode ((inSet s nid).foldl (spliceOutBody nid) s) nid).in_nodes := by
    intro o ho
    rw [hg1 o, hg1 nid]
    exact h5 o ho
  have h6' : ((outSet s nid).map
      (fun o => (getNode ((inSet s nid).foldl (spliceOutBody nid) s) o).in_nodes)).Nodup := by
    have hfe : (fun o => (getNode ((inSet s nid).foldl (spliceOutBody nid) s) o).in_nodes)
        = (fun o => (getNode s o).in_nodes) := funext (fun a => by rw [hg1 a])
    rw [hfe]
    exact h6
  have h7' : ∀ o ∈ outSet s nid,
      (getNode ((inSet s nid).foldl (spliceOutBody nid) s) o).in_nodes <
      ((inSet s nid).foldl (spliceOutBody nid) s).heap.length := by
    intro o ho
    rw [hg1 o, e3]
    exact h7 o ho
  obtain ⟨f1, f2, f3, frame2, mem2⟩ :=
    spliceInLoop_spec nid (outSet s nid) ((inSet s nid).foldl (spliceOutBody nid) s) h5' h6' h7'
  simp only [hg1] at frame2 mem2
  have hg2 : ∀ a, getNode ((outSet s nid).foldl (spliceInBody nid)
      ((inSet s nid).foldl (spliceOutBody nid) s)) a = getNode s a := by
    intro a
    rw [getNode_eq_of_objs f1 a, hg1 a]
  refine ⟨?_, ?_, ?_, ?_, ?_, ?_⟩
  · rw [hsplice, f1, e1]
  · rw [hsplice, f2, e2]
  · rw [hsplice, f3, e3]
  · intro i hi y
    rw [hsplice]
    show y ∈ getSet ((outSet s nid).foldl (spliceInBody nid)
        ((inSet s nid).foldl (spliceOutBody nid) s))
      ((getNode ((outSet s nid).foldl (spliceInBody nid)
        ((inSet s nid).foldl (spliceOutBody nid) s)) i).out_nodes) ↔ _
    rw [hg2 i, frame2 ((getNode s i).out_nodes) (fun o ho heq => h8 i hi o ho heq)]
    exact mem1 i hi y
  · intro o ho y
    rw [hsplice]
    show y ∈ getSet ((outSet s nid).foldl (spliceInBody nid)
        ((inSet s nid).foldl (spliceOutBody nid) s))
      ((getNode ((outSet s nid).foldl (spliceInBody nid)
        ((inSet s nid).foldl (spliceOutBody nid) s)) o).in_nodes) ↔ _
    rw [hg2 o, mem2 o ho y,
      frame1 ((getNode s o).in_nodes) (fun i hi heq => h8 i hi o ho heq.symm),
      frame1 ((getNode s nid).in_nodes) (fun i hi heq => h4 i hi heq.symm)]
    rfl
  · intro r hri2 hro2
    rw [hsplice, frame2 r hro2, frame1 r hri2]

theorem removePass_eq (cond : GState → Nat → Bool) (order : List Nat) (st : GState) :
    removePass cond order st = order.foldl
      (fun acc nid =>
        if cond acc.1 nid then (spliceNode acc.1 nid, acc.2.1, true)
        else (acc.1, acc.2.1 ++ [nid], acc.2.2)) (st, [], false) := rfl

theorem removePass_flag_mono (cond : GState → Nat → Bool) (order : List Nat) :
    ∀ (s : GState) (k : List Nat),
    (order.foldl
      (fun acc nid =>
        if cond acc.1 nid then (spliceNode acc.1 nid, acc.2.1, true)
        else (acc.1, acc.2.1 ++ [nid], acc.2.2)) (s, k, true)).2.2 = true := by
  induction order with
  | nil => exact fun s k => rfl
  | cons nid rest ih =>
    intro s k
    simp only [List.foldl_cons]
    by_cases hc : cond s nid
    · simp only [if_pos hc]
      exact ih (spliceNode s nid) k
    · simp only [if_neg hc]
      exact ih s (k ++ [nid])

theorem removePass_unchanged (cond : GState → Nat → Bool) (order : List Nat) :
    ∀ (s : GState) (k : List Nat),
    (order.foldl
      (fun acc nid =>
        if cond acc.1 nid then (spliceNode acc.1 nid, acc.2.1, true)
        else (acc.1, acc.2.1 ++ [nid], acc.2.2)) (s, k, false)).2.2 = false →
    (order.foldl
      (fun acc nid =>
        if cond acc.1 nid then (spliceNode acc.1 nid, acc.2.1, true)
        else (acc.1, acc.2.1 ++ [nid], acc.2.2)) (s, k, false)).1 = s ∧
    (order.foldl
      (fun acc nid =>
        if cond acc.1 nid then (spliceNode acc.1 nid, acc.2.1, true)
        else (acc.1, acc.2.1 ++ [nid], acc.2.2)) (s, k, false)).2.1 = k ++ order ∧
    (∀ nid ∈ order, cond s nid = false) := by
  induction order with
  | nil =>
    intro s k _
    exact ⟨rfl, by simp, fun nid h => absurd h (List.not_mem_nil nid)⟩
  | cons nid rest ih =>
    intro s k hflag
    simp only [List.foldl_cons] at hflag ⊢
    by_cases hc : cond s nid
    · simp only [if_pos hc] at hflag
      rw [removePass_flag_mono cond rest (spliceNode s nid) k] at hflag
      cases hflag
    · simp only [if_neg hc] at hflag ⊢
      obtain ⟨u1, u2, u3⟩ := ih s (k ++ [nid]) hflag
      refine ⟨u1, ?_, ?_⟩
      · rw [u2]
        simp
      · intro m hm
        rcases List.mem_cons.mp hm with rfl | hm2
        · simpa using hc
        · exact u3 m hm2

theorem removePass_shrinks (cond : GState → Nat → Bool) (order : List Nat) :
    ∀ (s : GState) (k : List Nat) (b : Bool),
    (order.foldl
      (fun acc nid =>
        if cond acc.1 nid then (spliceNode acc.1 nid, acc.2.1, true)
        else (acc.1, acc.2.1 ++ [nid], acc.2.2)) (s, k, b)).2.1.length ≤
        k.length + order.length ∧
    (b = false →
      (order.foldl
        (fun acc nid =>
          if cond acc.1 nid then (spliceNode acc.1 nid, acc.2.1, true)
          else (acc.1, acc.2.1 ++ [nid], acc.2.2)) (s, k, b)).2.2 = true →
      (order.foldl
        (fun acc nid =>
          if cond acc.1 nid then (spliceNode acc.1 nid, acc.2.1, true)
          else (acc.1, acc.2.1 ++ [nid], acc.2.2)) (s, k, b)).2.1.length <
        k.length + order.length) := by
  induction order with
  | nil =>
    intro s k b
    simp only [List.foldl_nil, List.length_nil]
    refine ⟨by omega, ?_⟩
    intro hp hflag
    rw [hp] at hflag
    cases hflag
  | cons nid rest ih =>
    intro s k b
    simp only [List.foldl_cons, List.length_cons]
    by_cases hc : cond s nid
    · simp only [if_pos hc]
      obtain ⟨b1, _⟩ := ih (spliceNode s nid) k true
      exact ⟨by omega, fun _ _ => by omega⟩
    · simp only [if_neg hc]
      obtain ⟨b1, b2⟩ := ih s (k ++ [nid]) b
      simp only [List.length_append, List.length_singleton] at b1 b2
      refine ⟨by omega, ?_⟩
      intro hp hflag
      have := b2 hp hflag
      omega

theorem remove_nodes_aux_fixpoint (cond : GState → Nat → Bool) :
    ∀ (fuel : Nat) (st : GState), st.nodes.length < fuel →
    ∀ nid ∈ (_remove_nodes_aux cond false fuel st).nodes,
      cond (_remove_nodes_aux cond false fuel st) nid = false := by
  intro fuel
  induction fuel with
  | zero =>
    intro st h
    omega
  | succ n ih =>
    intro st h
    have hstep : _remove_nodes_aux cond false (n + 1) st =
        (if (removePass cond st.nodes st).2.2 then
          _remove_nodes_aux cond false n
            { (removePass cond st.nodes st).1 with nodes := (removePass cond st.nodes st).2.1 }
        else
          { (removePass cond st.nodes st).1 with
            nodes := (removePass cond st.nodes st).2.1 }) := rfl
    by_cases hfl : (removePass cond st.nodes st).2.2 = true
    · rw [hstep, if_pos hfl]
      apply ih
      show (removePass cond st.nodes st).2.1.length < n
      have hs := (removePass_shrinks cond st.nodes st [] false).2 rfl
        (by rw [removePass_eq] at hfl; exact hfl)
      rw [removePass_eq]
      simp only [List.length_nil] at hs
      omega
    · rw [Bool.not_eq_true] at hfl
      obtain ⟨u1, u2, u3⟩ := removePass_unchanged cond st.nodes st []
        (by rw [removePass_eq] at hfl; exact hfl)
      rw [hstep, if_neg (by rw [hfl]; exact fun hx => Bool.false_ne_true hx)]
      have hres : { (removePass cond st.nodes st).1 with
          nodes := (removePass cond st.nodes st).2.1 } = st := by
        rw [removePass_eq]
        rw [u1, u2, List.nil_append]
      rw [hres]
      intro nid hnid
      exact u3 nid hnid

theorem remove_nodes_fixpoint (cond : GState → Nat → Bool) (st : GState) :
    ∀ nid ∈ (_remove_nodes cond false st).nodes,
      cond (_remove_nodes cond false st) nid = false :=
  remove_nodes_aux_fixpoint cond (st.nodes.length + 1) st (Nat.lt_succ_self _)

/-- C5 counterexample: in the chain x(0) → A(1) → B(2) → y(3) with A and B
constant-scoped, A's former in-neighbour 0 and former out-neighbour 2 do NOT
end up connected in the final graph: B is itself removed by a later splice of
the same pass, so after the pass 0's out-set is [3] and node 2 is gone —
refuting "for every removed constant node each of its former in-neighbors has
a direct edge to each of its former out-neighbors" read over the final
graph. -/
theorem constant_bridging_not_in_final_graph :
    isConstantNode chainState 1 = true ∧
    inSet chainState 1 = [0] ∧
    outSet chainState 1 = [2] ∧
    (_remove_constant_nodes chainState).nodes = [0, 3] ∧
    outSet (_remove_constant_nodes chainState) 0 = [3] ∧
    (2 : Nat) ∉ outSet (_remove_constant_nodes chainState) 0 := by
  refine ⟨rfl, rfl, rfl, rfl, rfl, by decide⟩

/-- C5 amended: (1) the constant-removal pass does run to a fixed point — in
the returned graph no node has a constant-marking scope; (2) bridging holds
per individual splice, not in the final graph: immediately after a node is
spliced out, each of its at-splice-time in-neighbours has a direct out-edge
to each of its at-splice-time out-neighbours and vice versa, and the spliced
node is dropped from both sides — under set-object hygiene (the involved
nodes own separate in/out set objects, no self-loop). -/
theorem constant_removal_spec :
    (∀ st : GState, ∀ nid ∈ (_remove_constant_nodes st).nodes,
      isConstantNode (_remove_constant_nodes st) nid = false) ∧
    (∀ (s : GState) (nid : Nat),
      (∀ i ∈ inSet s nid, (getNode s i).out_nodes ≠ (getNode s nid).out_nodes) →
      ((inSet s nid).map (fun i => (getNode s i).out_nodes)).Nodup →
      (∀ i ∈ inSet s nid, (getNode s i).out_nodes < s.heap.length) →
      (∀ i ∈ inSet s nid, (getNode s i).out_nodes ≠ (getNode s nid).in_nodes) →
      (∀ o ∈ outSet s nid, (getNode s o).in_nodes ≠ (getNode s nid).in_nodes) →
      ((outSet s nid).map (fun o => (getNode s o).in_nodes)).Nodup →
      (∀ o ∈ outSet s nid, (getNode s o).in_nodes < s.heap.length) →
      (∀ i ∈ inSet s nid, ∀ o ∈ outSet s nid,
        (getNode s i).out_nodes ≠ (getNode s o).in_nodes) →
      nid ∉ inSet s nid → nid ∉ outSet s nid →
      ∀ i ∈ inSet s nid, ∀ o ∈ outSet s nid,
        o ∈ outSet (spliceNode s nid) i ∧ i ∈ inSet (spliceNode s nid) o ∧
        nid ∉ outSet (spliceNode s nid) i ∧ nid ∉ inSet (spliceNode s nid) o) := by
  constructor
  · exact fun st => remove_nodes_fixpoint isConstantNode st
  · intro s nid h1 h2 h3 h4 h5 h6 h7 h8 hnin hnout i hi o ho
    obtain ⟨_, _, _, memOut, memIn, _⟩ := spliceNode_spec s nid h1 h2 h3 h4 h5 h6 h7 h8
    refine ⟨?_, ?_, ?_, ?_⟩
    · exact (memOut i hi o).mpr (Or.inr ho)
    · exact (memIn o ho i).mpr (Or.inr hi)
    · intro hmem
      rcases (memOut i hi nid).mp hmem with ⟨_, hne⟩ | hO
      · exact hne rfl
      · exact hnout hO
    · intro hmem
      rcases (memIn o ho nid).mp hmem with ⟨_, hne⟩ | hI
      · exact hne rfl
      · exact hnin hI

/-- C5 witness: the fixed-point half at the chain state (the kept node 0 is
not constant-scoped in the final graph), and the per-splice bridging half at
the splice of constant node 1: its in-neighbour 0 and out-neighbour 2 become
directly connected in both directions and both drop node 1. -/
theorem constant_removal_spec_witness :
    isConstantNode (_remove_constant_nodes chainState) 0 = false ∧
    ((2 : Nat) ∈ outSet (spliceNode chainState 1) 0 ∧
      (0 : Nat) ∈ inSet (spliceNode chainState 1) 2 ∧
      (1 : Nat) ∉ outSet (spliceNode chainState 1) 0 ∧
      (1 : Nat) ∉ inSet (spliceNode chainState 1) 2) :=
  ⟨constant_removal_spec.1 chainState 0 (by decide),
   constant_removal_spec.2 chainState 1 (by decide) (by decide) (by decide) (by decide)
     (by decide) (by decide) (by decide) (by decide) (by decide) (by decide)
     0 (by decide) 2 (by decide)⟩

theorem getNode_mem (st : GState) (a : Nat) (h : a < st.objs.length) :
    getNode st a ∈ st.objs := by
  unfold getNode
  rw [List.getD_eq_getElem st.objs default h]
  exact List.getElem_mem h

theorem processOp_single_output_consistent (st : GState) (idx num_extra : Nat) (op : TraceOp)
    (hvalid : ∀ i ∈ op.inputs, i < st.nodes.length)
    (hids : IdsValid st)
    (hrefs : RefsValid st)
    (hnode_idx : st.num_inputs_buffs_params + idx + num_extra = st.nodes.length)
    (hk : op.num_outputs = 1)
    (hcons : Consistent st) (hclosed : Closed st) (hsep : SepRefs st) :
    ∃ stF, processOp st idx num_extra op = .ok (stF, num_extra) ∧
      stF.nodes = st.nodes ++ [st.objs.length] ∧ Consistent stF := by
  obtain ⟨S, stF, hres, hmem, hok, heff⟩ :=
    processOp_ok st idx num_extra op hvalid hids hrefs hnode_idx (by omega)
  rw [hk] at hok
  have hSsub : ∀ x ∈ S, x ∈ st.nodes := resolveInputs_mem_nodes st op.inputs S hres hvalid
  have hlt : ∀ c ∈ st.nodes, c < st.objs.length := hids
  have hnodesF : stF.nodes = st.nodes ++ [st.objs.length] := by
    rw [heff.nodes_eq, hk]
    rfl
  have hgold : ∀ a ∈ st.nodes, getNode stF a = getNode st a :=
    fun a ha => heff.old_node a (hlt a ha)
  have hrolt : ∀ a ∈ st.nodes, (getNode st a).out_nodes < st.heap.length :=
    fun a ha => (hrefs (getNode st a) (getNode_mem st a (hlt a ha))).2
  have hrilt : ∀ a ∈ st.nodes, (getNode st a).in_nodes < st.heap.length :=
    fun a ha => (hrefs (getNode st a) (getNode_mem st a (hlt a ha))).1
  have hin : getSet stF st.heap.length = S := by
    have h := heff.shared_in
    rw [hk] at h
    simpa using h
  have hout : getSet stF (st.heap.length + 1) = [] := by
    have h := heff.prim_out
    rw [hk] at h
    simpa using h
  have hprimin : (getNode stF st.objs.length).in_nodes = st.heap.length := by
    rw [heff.prim_node]
    rfl
  have hprimout : (getNode stF st.objs.length).out_nodes = st.heap.length + 1 := by
    rw [heff.prim_node]
    rfl
  refine ⟨stF, hok, hnodesF, ?_⟩
  intro a ha b hb
  rw [hnodesF] at ha hb
  rcases List.mem_append.mp ha with ha2 | haN
  · rcases List.mem_append.mp hb with hb2 | hbN
    · -- both pre-existing nodes: membership in any old set object gains only
      -- the fresh id, which neither a nor b equals
      show b ∈ getSet stF ((getNode stF a).out_nodes) ↔
        a ∈ getSet stF ((getNode stF b).in_nodes)
      rw [hgold a ha2, hgold b hb2]
      rw [heff.old_set_mem ((getNode st a).out_nodes) (hrolt a ha2) b]
      rw [heff.old_set_mem ((getNode st b).in_nodes) (hrilt b hb2) a]
      constructor
      · rintro (hbo | ⟨hbN, _⟩)
        · exact Or.inl ((hcons a ha2 b hb2).mp hbo)
        · exact absurd hbN (Nat.ne_of_lt (hlt b hb2))
      · rintro (hai | ⟨haN, _⟩)
        · exact Or.inl ((hcons a ha2 b hb2).mpr hai)
        · exact absurd haN (Nat.ne_of_lt (hlt a ha2))
    · -- a pre-existing, b the fresh node: edge a→new iff a is an input
      rw [List.mem_singleton.mp hbN]
      show st.objs.length ∈ getSet stF ((getNode stF a).out_nodes) ↔
        a ∈ getSet stF ((getNode stF st.objs.length).in_nodes)
      rw [hgold a ha2, hprimin, hin,
        heff.old_set_mem ((getNode st a).out_nodes) (hrolt a ha2) st.objs.length]
      constructor
      · rintro (hNo | ⟨_, x, hxS, hxeq⟩)
        · exact absurd (hlt st.objs.length ((hclosed a ha2).1 st.objs.length hNo))
            (Nat.lt_irrefl st.objs.length)
        · rw [(hsep x (hSsub x hxS) a ha2).2.1 hxeq] at hxS
          exact hxS
      · intro haS
        exact Or.inr ⟨rfl, a, haS, rfl⟩
  · rcases List.mem_append.mp hb with hb2 | hbN
    · -- a the fresh node, b pre-existing: the fresh out-set is empty, and
      -- no old in-set object is an input's out-set object
      rw [List.mem_singleton.mp haN]
      show b ∈ getSet stF ((getNode stF st.objs.length).out_nodes) ↔
        st.objs.length ∈ getSet stF ((getNode stF b).in_nodes)
      rw [hprimout, hout, hgold b hb2,
        heff.old_set_mem ((getNode st b).in_nodes) (hrilt b hb2) st.objs.length]
      constructor
      · intro hfalse
        exact absurd hfalse (List.not_mem_nil b)
      · rintro (hNi | ⟨_, x, hxS, hxeq⟩)
        · exact absurd (hlt st.objs.length ((hclosed b hb2).2 st.objs.length hNi))
            (Nat.lt_irrefl st.objs.length)
        · exact absurd hxeq.symm ((hsep b hb2 x (hSsub x hxS)).2.2)
    · -- both the fresh node: empty out-set, and the fresh id is not an input
      rw [List.mem_singleton.mp haN, List.mem_singleton.mp hbN]
      show st.objs.length ∈ getSet stF ((getNode stF st.objs.length).out_nodes) ↔
        st.objs.length ∈ getSet stF ((getNode stF st.objs.length).in_nodes)
      rw [hprimout, hout, hprimin, hin]
      constructor
      · intro hfalse
        exact absurd hfalse (List.not_mem_nil st.objs.length)
      · intro hNS
        exact absurd (hlt st.objs.length (hSsub st.objs.length hNS))
          (Nat.lt_irrefl st.objs.length)

theorem splice_erase_consistent (s : GState) (nid : Nat)
    (hcons : Consistent s) (hclosed : Closed s) (hids : IdsValid s) (hrefs : RefsValid s)
    (hsep : SepRefs s) (hnd : s.nodes.Nodup) (hmemn : nid ∈ s.nodes)
    (hself : nid ∉ inSet s nid)
    (hInd : (inSet s nid).Nodup) (hOnd : (outSet s nid).Nodup) :
    Consistent { spliceNode s nid with nodes := s.nodes.erase nid } := by
  have hIsub : ∀ i ∈ inSet s nid, i ∈ s.nodes := (hclosed nid hmemn).2
  have hOsub : ∀ o ∈ outSet s nid, o ∈ s.nodes := (hclosed nid hmemn).1
  have hselfout : nid ∉ outSet s nid := fun h => hself ((hcons nid hmemn nid hmemn).mp h)
  have hlt : ∀ c ∈ s.nodes, c < s.objs.length := hids
  have hrolt : ∀ a ∈ s.nodes, (getNode s a).out_nodes < s.heap.length :=
    fun a ha => (hrefs (getNode s a) (getNode_mem s a (hlt a ha))).2
  have hrilt : ∀ a ∈ s.nodes, (getNode s a).in_nodes < s.heap.length :=
    fun a ha => (hrefs (getNode s a) (getNode_mem s a (hlt a ha))).1
  have h1 : ∀ i ∈ inSet s nid, (getNode s i).out_nodes ≠ (getNode s nid).out_nodes := by
    intro i hi heq
    exact hself (by rw [(hsep i (hIsub i hi) nid hmemn).2.1 heq] at hi; exact hi)
  have h2 : ((inSet s nid).map (fun i => (getNode s i).out_nodes)).Nodup := by
    refine List.Nodup.map_on ?_ hInd
    intro x hx y hy hxy
    exact (hsep x (hIsub x hx) y (hIsub y hy)).2.1 hxy
  have h3 : ∀ i ∈ inSet s nid, (getNode s i).out_nodes < s.heap.length :=
    fun i hi => hrolt i (hIsub i hi)
  have h4 : ∀ i ∈ inSet s nid, (getNode s i).out_nodes ≠ (getNode s nid).in_nodes :=
    fun i hi heq => (hsep nid hmemn i (hIsub i hi)).2.2 heq.symm
  have h5 : ∀ o ∈ outSet s nid, (getNode s o).in_nodes ≠ (getNode s nid).in_nodes := by
    intro o ho heq
    exact hselfout (by rw [(hsep o (hOsub o ho) nid hmemn).1 heq] at ho; exact ho)
  have h6 : ((outSet s nid).map (fun o => (getNode s o).in_nodes)).Nodup := by
    refine List.Nodup.map_on ?_ hOnd
    intro x hx y hy hxy
    exact (hsep x (hOsub x hx) y (hOsub y hy)).1 hxy
  have h7 : ∀ o ∈ outSet s nid, (getNode s o).in_nodes < s.heap.length :=
    fun o ho => hrilt o (hOsub o ho)
  have h8 : ∀ i ∈ inSet s nid, ∀ o ∈ outSet s nid,
      (getNode s i).out_nodes ≠ (getNode s o).in_nodes :=
    fun i hi o ho heq => (hsep o (hOsub o ho) i (hIsub i hi)).2.2 heq.symm
  obtain ⟨e1, e2, e3, memOut, memIn, frame⟩ := spliceNode_spec s nid h1 h2 h3 h4 h5 h6 h7 h8
  have hg : ∀ a, getNode (spliceNode s nid) a = getNode s a := getNode_eq_of_objs e1
  have outFrame : ∀ a ∈ s.nodes, a ∉ inSet s nid →
      outSet (spliceNode s nid) a = outSet s a := by
    intro a ha hai
    show getSet (spliceNode s nid) ((getNode (spliceNode s nid) a).out_nodes) = _
    rw [hg a]
    exact frame ((getNode s a).out_nodes)
      (fun i hi heq => hai (by rw [(hsep a ha i (hIsub i hi)).2.1 heq]; exact hi))
      (fun o ho heq => (hsep o (hOsub o ho) a ha).2.2 heq.symm)
  have inFrame : ∀ a ∈ s.nodes, a ∉ outSet s nid →
      inSet (spliceNode s nid) a = inSet s a := by
    intro a ha hao
    show getSet (spliceNode s nid) ((getNode (spliceNode s nid) a).in_nodes) = _
    rw [hg a]
    exact frame ((getNode s a).in_nodes)
      (fun i hi heq => absurd heq (hsep a ha i (hIsub i hi)).2.2)
      (fun o ho heq => hao (by rw [(hsep a ha o (hOsub o ho)).1 heq]; exact ho))
  intro a ha b hb
  have ha' : a ∈ s.nodes.erase nid := ha
  have hb' : b ∈ s.nodes.erase nid := hb
  rw [List.Nodup.mem_erase_iff hnd] at ha' hb'
  obtain ⟨hane, hanodes⟩ := ha'
  obtain ⟨hbne, hbnodes⟩ := hb'
  show b ∈ outSet (spliceNode s nid) a ↔ a ∈ inSet (spliceNode s nid) b
  by_cases hai : a ∈ inSet s nid
  · by_cases hbo : b ∈ outSet s nid
    · constructor
      · intro _
        exact (memIn b hbo a).mpr (Or.inr hai)
      · intro _
        exact (memOut a hai b).mpr (Or.inr hbo)
    · rw [memOut a hai b, inFrame b hbnodes hbo]
      constructor
      · rintro (⟨hba, _⟩ | hbO)
        · exact (hcons a hanodes b hbnodes).mp hba
        · exact absurd hbO hbo
      · intro haib
        exact Or.inl ⟨(hcons a hanodes b hbnodes).mpr haib, hbne⟩
  · by_cases hbo : b ∈ outSet s nid
    · rw [outFrame a hanodes hai, memIn b hbo a]
      constructor
      · intro hba
        exact Or.inl ⟨(hcons a hanodes b hbnodes).mp hba, hane⟩
      · rintro (⟨haib, _⟩ | haiI)
        · exact (hcons a hanodes b hbnodes).mpr haib
        · exact absurd haiI hai
    · rw [outFrame a hanodes hai, inFrame b hbnodes hbo]
      exact hcons a hanodes b hbnodes

/-- C7 counterexample: the multi-output secondary-node creation breaks
bidirectional edge consistency.  In the graph built from one input (0) and
one 2-output op (primary 1, secondary 2), the shallow copy puts the input 0
in the secondary's (shared) in-set, but 2 was never added to 0's out-set:
0 has out-edge set [1] only. -/
theorem multi_output_wiring_breaks_consistency :
    (do
        let s1 ← _add_IO_nodes ⟨[], [], [], [], 1, [], 0⟩ [⟨some [2, 3]⟩]
        _add_OP_nodes s1 [⟨"", "aten::mul", [0], 2, some [2, 3]⟩] :
      Except BuildExn GState) = .ok twoOutState ∧
    (0 : Nat) ∈ twoOutState.nodes ∧ (2 : Nat) ∈ twoOutState.nodes ∧
    (0 : Nat) ∈ inSet twoOutState 2 ∧ (2 : Nat) ∉ outSet twoOutState 0 ∧
    ¬ Consistent twoOutState := by
  refine ⟨rfl, by decide, by decide, by decide, by decide, by decide⟩

/-- C7 amended: wiring a SINGLE-output op during construction preserves
bidirectional edge consistency (on a well-formed state with separated set
objects), and so does node removal with edge splicing once the spliced node
is dropped from the node list (under the same hygiene plus no self-loop);
the multi-output secondary-node creation does not preserve it. -/
theorem graph_ops_preserve_consistency :
    (∀ (st : GState) (idx num_extra : Nat) (op : TraceOp),
      (∀ i ∈ op.inputs, i < st.nodes.length) → IdsValid st → RefsValid st →
      st.num_inputs_buffs_params + idx + num_extra = st.nodes.length →
      op.num_outputs = 1 →
      Consistent st → Closed st → SepRefs st →
      ∃ stF, processOp st idx num_extra op = .ok (stF, num_extra) ∧
        stF.nodes = st.nodes ++ [st.objs.length] ∧ Consistent stF) ∧
    (∀ (s : GState) (nid : Nat),
      Consistent s → Closed s → IdsValid s → RefsValid s → SepRefs s →
      s.nodes.Nodup → nid ∈ s.nodes → nid ∉ inSet s nid →
      (inSet s nid).Nodup → (outSet s nid).Nodup →
      Consistent { spliceNode s nid with nodes := s.nodes.erase nid }) :=
  ⟨fun st idx num_extra op hvalid hids hrefs hnode_idx hk hcons hclosed hsep =>
    processOp_single_output_consistent st idx num_extra op
      hvalid hids hrefs hnode_idx hk hcons hclosed hsep,
   fun s nid hcons hclosed hids hrefs hsep hnd hmemn hself hInd hOnd =>
    splice_erase_consistent s nid hcons hclosed hids hrefs hsep hnd hmemn hself hInd hOnd⟩

/-- C7 witness: the wiring half at the consistent one-input state with a
single-output op, and the splicing half at the consistent chain state
removing node 1. -/
theorem graph_ops_preserve_consistency_witness :
    (∃ stF, processOp inputOnlyState 0 0 ⟨"", "aten::relu", [0], 1, none⟩ = .ok (stF, 0) ∧
      stF.nodes = inputOnlyState.nodes ++ [inputOnlyState.objs.length] ∧ Consistent stF) ∧
    Consistent { spliceNode chainState 1 with nodes := chainState.nodes.erase 1 } :=
  ⟨graph_ops_preserve_consistency.1 inputOnlyState 0 0 ⟨"", "aten::relu", [0], 1, none⟩
    (by decide) (by decide) (by decide) (by decide) (by decide) (by decide) (by decide)
    (by decide),
   graph_ops_preserve_consistency.2 chainState 1 (by decide) (by decide) (by decide)
    (by decide) (by decide) (by decide) (by decide) (by decide) (by decide) (by decide)⟩

end PG
